import Mathlib

/-!
# testProject character: dash and aim-down-sights

A shallow embedding of `Source/testProject/testProjectCharacter.cpp`.

* Floating-point members (`float`, `FVector`) are embedded over `ℚ`, and the
  statements about one call or about the direction and end point of a dash are
  about exact arithmetic.  How many calls a dash takes depends on the rounding of
  the `float` member `DashAlpha`; for that, `binary32` rounds a rational to the
  nearest single-precision value and `DashInAction_binary32` is `DashInAction`
  with the two `float` operations of `DashAlpha += dt / 0.5f` rounded.
* The host engine is not part of the repository.  What the character reads from
  it at a call (frame delta, actor location, velocity, camera direction, local
  control) is a `World` argument; the engine math routines whose results the
  character only stores or compares (`FVector::Length`, `FVector::Normalize`,
  `FMath::FInterpTo`, `FMath::VInterpTo`) are fields of an `Engine` argument.
* What the character hands to the engine is recorded in the state: the
  `SetActorLocation` requests (`moves`), the callbacks registered with the timer
  manager and not fired yet (`timers`), and the RPCs invoked and not executed
  yet (`rpcs`).
-/

namespace TestProject

/-! ## Data model -/

/-- Engine vector type `FVector`, with exact components. -/
structure FVector where
  X : ℚ
  Y : ℚ
  Z : ℚ
  deriving DecidableEq, Repr

namespace FVector

instance : Add FVector := ⟨fun a b => ⟨a.X + b.X, a.Y + b.Y, a.Z + b.Z⟩⟩
instance : Sub FVector := ⟨fun a b => ⟨a.X - b.X, a.Y - b.Y, a.Z - b.Z⟩⟩
instance : SMul ℚ FVector := ⟨fun k v => ⟨k * v.X, k * v.Y, k * v.Z⟩⟩

end FVector

/-- Modelled from the spec: the engine routine `FMath::Lerp` is not under the
repository; the spec calls the dash a simple linear interpolation, which is
`A + Alpha * (B - A)`. -/
def Lerp (A B : FVector) (Alpha : ℚ) : FVector := A + Alpha • (B - A)

/-- The three member functions the character registers with the timer manager
(`TimerDel.BindUFunction(this, FName(...))`). -/
inductive Callback
  | DashCooldownReset
  | DashInAction
  | AimCameraInterp
  deriving DecidableEq, Repr

/-- A registration held by the timer manager: `SetTimerForNextTick(TimerDel)` or
`SetTimer(Handle, TimerDel, Rate, bLoop)` with a fresh handle. -/
inductive Timer
  | nextTick (cb : Callback)
  | after (cb : Callback) (rate : ℚ) (loop : Bool)
  deriving DecidableEq, Repr

/-- The remote procedure calls of the header (`UFUNCTION(Server, Reliable)` and
`UFUNCTION(NetMulticast, Reliable)`) that the dash and aim code invokes. -/
inductive Rpc
  | Server_Dash
  | Client_DashMulti
  | Server_Aim (b : Bool)
  | Client_AimMulti (b : Bool)
  deriving DecidableEq, Repr

/-- What a call reads from the engine: `GetWorld()->GetDeltaSeconds()`,
`GetActorLocation()`, `GetVelocity()`, `FollowCamera->GetForwardVector()` and
`IsLocallyControlled()`. -/
structure World where
  DeltaSeconds : ℚ
  ActorLocation : FVector
  Velocity : FVector
  CameraForward : FVector
  IsLocallyControlled : Bool
  deriving DecidableEq, Repr

/-- Engine math routines used by the character and defined outside the
repository.  `Length` and `Normalize` are `FVector::Length` and
`FVector::Normalize`; `FInterpTo` and `VInterpTo` take
`(Current, Target, DeltaTime, InterpSpeed)`. -/
structure Engine where
  Length : FVector → ℚ
  Normalize : FVector → FVector
  FInterpTo : ℚ → ℚ → ℚ → ℚ → ℚ
  VInterpTo : FVector → FVector → ℚ → ℚ → FVector

/-- The members of `AtestProjectCharacter` and of its components that the dash
and aim code reads or writes, with the record of what was handed to the engine. -/
structure State where
  /-- Member `bool ADS`. -/
  ADS : Bool
  /-- Member `bool DashCD = false`. -/
  DashCD : Bool
  /-- Member `FVector StartLocation`. -/
  StartLocation : FVector
  /-- Member `FVector ForwardVector`. -/
  ForwardVector : FVector
  /-- Member `float DashAlpha`. -/
  DashAlpha : ℚ
  /-- Member `float fTargetCameraInterp`. -/
  fTargetCameraInterp : ℚ
  /-- Member `FVector vTargetCameraInterp`. -/
  vTargetCameraInterp : FVector
  /-- Member `bool InterpTimer = false`. -/
  InterpTimer : Bool
  /-- Field `GetCharacterMovement()->MaxWalkSpeed`. -/
  MaxWalkSpeed : ℚ
  /-- Field `GetMesh()->bPauseAnims`. -/
  bPauseAnims : Bool
  /-- Field `CameraBoom->TargetArmLength`. -/
  TargetArmLength : ℚ
  /-- Field `CameraBoom->SocketOffset`. -/
  SocketOffset : FVector
  /-- The `SetActorLocation(NewLocation, bSweep)` requests made so far, oldest first. -/
  moves : List (FVector × Bool)
  /-- The callbacks registered with the timer manager and not fired yet. -/
  timers : List Timer
  /-- The RPCs invoked and not executed yet. -/
  rpcs : List Rpc
  deriving DecidableEq, Repr

/-- The state the constructor and the member initialisers leave: `MaxWalkSpeed`
500, `TargetArmLength` 400, `DashCD` and `InterpTimer` false; the members
without an initialiser are zero, as the engine zero-fills objects. -/
def constructed : State where
  ADS := false
  DashCD := false
  StartLocation := ⟨0, 0, 0⟩
  ForwardVector := ⟨0, 0, 0⟩
  DashAlpha := 0
  fTargetCameraInterp := 0
  vTargetCameraInterp := ⟨0, 0, 0⟩
  InterpTimer := false
  MaxWalkSpeed := 500
  bPauseAnims := false
  TargetArmLength := 400
  SocketOffset := ⟨0, 0, 0⟩
  moves := []
  timers := []
  rpcs := []

/-! ## Dash -/

/-- Source `AtestProjectCharacter::DashCooldownReset`. -/
def DashCooldownReset (s : State) : State :=
  { s with DashCD := false }

/-- Source `AtestProjectCharacter::Dash`. -/
def Dash (s : State) : State :=
  if !s.ADS then
    if !s.DashCD then
      { s with
        DashCD := true
        timers := s.timers ++ [Timer.after Callback.DashCooldownReset 1 false]
        rpcs := s.rpcs ++ [Rpc.Server_Dash] }
    else s
  else s

/-- Source `AtestProjectCharacter::Server_Dash_Implementation`. -/
def Server_Dash_Implementation (s : State) : State :=
  { s with rpcs := s.rpcs ++ [Rpc.Client_DashMulti] }

/-- Source `AtestProjectCharacter::DashInAction`, in exact arithmetic;
`DashInAction_binary32` below rounds `DashAlpha` as the `float` member does. -/
def DashInAction (w : World) (s : State) : State :=
  if s.DashAlpha ≤ 1 then
    let alpha := s.DashAlpha + w.DeltaSeconds / (1 / 2)
    { s with
      DashAlpha := alpha
      moves := s.moves ++
        [(Lerp s.StartLocation (s.StartLocation + (1000 : ℚ) • s.ForwardVector) alpha, true)]
      timers := s.timers ++ [Timer.nextTick Callback.DashInAction] }
  else
    { s with MaxWalkSpeed := 500, bPauseAnims := false }

/-- The vector `Client_DashMulti_Implementation` assigns to `ForwardVector`
before normalising it. -/
def dashDirection (E : Engine) (w : World) : FVector :=
  if E.Length ⟨w.Velocity.X, w.Velocity.Y, 0⟩ > 5 then
    ⟨w.Velocity.X, w.Velocity.Y, 0⟩
  else
    ⟨w.CameraForward.X, w.CameraForward.Y, 0⟩

/-- The assignments of `Client_DashMulti_Implementation` before its call of
`DashInAction`. -/
def dashBegin (E : Engine) (w : World) (s : State) : State :=
  { s with
    bPauseAnims := true
    StartLocation := w.ActorLocation
    ForwardVector := E.Normalize (dashDirection E w)
    DashAlpha := 0 }

/-- Source `AtestProjectCharacter::Client_DashMulti_Implementation`. -/
def Client_DashMulti_Implementation (E : Engine) (w : World) (s : State) : State :=
  DashInAction w (dashBegin E w s)

/-! ## Aim down sights -/

/-- Source `AtestProjectCharacter::AimCameraInterp`. -/
def AimCameraInterp (E : Engine) (w : World) (s : State) : State :=
  let s1 : State :=
    { s with TargetArmLength :=
        E.FInterpTo s.TargetArmLength s.fTargetCameraInterp w.DeltaSeconds 10 }
  let s2 : State :=
    { s1 with SocketOffset :=
        E.VInterpTo s1.SocketOffset s1.vTargetCameraInterp w.DeltaSeconds 10 }
  if s2.TargetArmLength = s2.fTargetCameraInterp ∧ s2.vTargetCameraInterp = s2.SocketOffset then
    { s2 with InterpTimer := false }
  else
    { s2 with timers := s2.timers ++ [Timer.nextTick Callback.AimCameraInterp] }

/-- Source `AtestProjectCharacter::Aim`. -/
def Aim (E : Engine) (w : World) (s : State) : State :=
  let s1 : State :=
    { s with
      ADS := true
      MaxWalkSpeed := 250
      rpcs := s.rpcs ++ [Rpc.Server_Aim true]
      fTargetCameraInterp := 100
      vTargetCameraInterp := ⟨0, 50, 30⟩ }
  if !s1.InterpTimer then
    AimCameraInterp E w { s1 with InterpTimer := true }
  else s1

/-- Source `AtestProjectCharacter::AimStop`. -/
def AimStop (E : Engine) (w : World) (s : State) : State :=
  let s1 : State :=
    { s with
      ADS := false
      MaxWalkSpeed := 500
      rpcs := s.rpcs ++ [Rpc.Server_Aim false]
      fTargetCameraInterp := 200
      vTargetCameraInterp := ⟨0, 100, 0⟩ }
  if !s1.InterpTimer then
    AimCameraInterp E w { s1 with InterpTimer := true }
  else s1

/-- Source `AtestProjectCharacter::Server_Aim_Implementation`. -/
def Server_Aim_Implementation (b : Bool) (s : State) : State :=
  { s with rpcs := s.rpcs ++ [Rpc.Client_AimMulti b] }

/-- Source `AtestProjectCharacter::Client_AimMulti_Implementation`. -/
def Client_AimMulti_Implementation (w : World) (b : Bool) (s : State) : State :=
  if !w.IsLocallyControlled then
    if b then
      { s with ADS := true, MaxWalkSpeed := 250 }
    else
      { s with ADS := false, MaxWalkSpeed := 500 }
  else s

/-! ## Input bindings -/

/-- The input-action members of the character (`UInputAction*`). -/
inductive InputAction
  | JumpAction
  | MoveAction
  | LookAction
  | DashAction
  | AimAction
  deriving DecidableEq, Repr

/-- Engine enumeration `ETriggerEvent`. -/
inductive ETriggerEvent
  | None
  | Triggered
  | Started
  | Ongoing
  | Canceled
  | Completed
  deriving DecidableEq, Repr

/-- The member functions bound to input actions. -/
inductive Handler
  | Jump
  | StopJumping
  | Move
  | Look
  | Dash
  | Aim
  | AimStop
  deriving DecidableEq, Repr

/-- One `BindAction(Action, TriggerEvent, this, &Handler)` registration. -/
structure Binding where
  action : InputAction
  event : ETriggerEvent
  handler : Handler
  deriving DecidableEq, Repr

/-- An input component: whether `Cast<UEnhancedInputComponent>` succeeds on it,
and the bindings registered on it, oldest first. -/
structure UInputComponent where
  enhanced : Bool
  bindings : List Binding
  deriving DecidableEq, Repr

/-- A line written with `UE_LOG(LogTemplateCharacter, Error, ...)`. -/
inductive LogLine
  | TemplateCharacterError
  deriving DecidableEq, Repr

/-- Source `AtestProjectCharacter::SetupPlayerInputComponent`.  The argument is a
pointer (`none` is `nullptr`, on which the cast fails too); the result is the
component after the call and the lines logged. -/
def SetupPlayerInputComponent (PlayerInputComponent : Option UInputComponent) :
    Option UInputComponent × List LogLine :=
  match PlayerInputComponent with
  | some c =>
    if c.enhanced then
      (some { c with bindings := c.bindings ++
          [ ⟨InputAction.JumpAction, ETriggerEvent.Started, Handler.Jump⟩,
            ⟨InputAction.JumpAction, ETriggerEvent.Completed, Handler.StopJumping⟩,
            ⟨InputAction.MoveAction, ETriggerEvent.Triggered, Handler.Move⟩,
            ⟨InputAction.LookAction, ETriggerEvent.Triggered, Handler.Look⟩,
            ⟨InputAction.DashAction, ETriggerEvent.Started, Handler.Dash⟩,
            ⟨InputAction.AimAction, ETriggerEvent.Started, Handler.Aim⟩,
            ⟨InputAction.AimAction, ETriggerEvent.Completed, Handler.AimStop⟩ ] }, [])
    else (some c, [LogLine.TemplateCharacterError])
  | none => (none, [LogLine.TemplateCharacterError])

/-! ## Executions

The engine drives the character: input events call `Dash`, `Aim` and `AimStop`
(the bindings above), the timer manager fires a registered callback, and an
invoked RPC is executed by running its `_Implementation`.  Time is not modelled:
a registered callback may fire at any later step, with any frame delta. -/

/-- The callback a registration fires. -/
def Timer.cb : Timer → Callback
  | Timer.nextTick cb => cb
  | Timer.after cb _ _ => cb

/-- What the timer manager keeps after firing a registration: a non-looping one
is removed. -/
def Timer.fired (t : Timer) (ts : List Timer) : List Timer :=
  match t with
  | Timer.nextTick _ => ts.erase t
  | Timer.after _ _ loop => if loop then ts else ts.erase t

/-- Running a bound callback. -/
def callback (E : Engine) (w : World) : Callback → State → State
  | Callback.DashCooldownReset => DashCooldownReset
  | Callback.DashInAction => DashInAction w
  | Callback.AimCameraInterp => AimCameraInterp E w

/-- Running the body of an RPC. -/
def implementation (E : Engine) (w : World) : Rpc → State → State
  | Rpc.Server_Dash => Server_Dash_Implementation
  | Rpc.Client_DashMulti => Client_DashMulti_Implementation E w
  | Rpc.Server_Aim b => Server_Aim_Implementation b
  | Rpc.Client_AimMulti b => Client_AimMulti_Implementation w b

/-- One thing the engine can do to the character. -/
inductive Action
  | Dash
  | Aim
  | AimStop
  | deliver (r : Rpc)
  | fire (t : Timer)
  deriving DecidableEq, Repr

/-- One step of an execution: `none` when the action is not enabled (the RPC was
not invoked, or the callback is not registered). -/
def step (E : Engine) (e : World × Action) (s : State) : Option State :=
  match e.2 with
  | Action.Dash => some (Dash s)
  | Action.Aim => some (Aim E e.1 s)
  | Action.AimStop => some (AimStop E e.1 s)
  | Action.deliver r =>
    if r ∈ s.rpcs then
      some (implementation E e.1 r { s with rpcs := s.rpcs.erase r })
    else none
  | Action.fire t =>
    if t ∈ s.timers then
      some (callback E e.1 t.cb { s with timers := t.fired s.timers })
    else none

/-- An execution: the steps in order, `none` as soon as one is not enabled. -/
def run (E : Engine) : List (World × Action) → State → Option State
  | [], s => some s
  | e :: es, s => (step E e s).bind (run E es)

/-- The timer manager firing a pending next-tick `DashInAction` in a frame with
delta `dt`. -/
def dashTick (w : World) (dt : ℚ) : World × Action :=
  ({ w with DeltaSeconds := dt }, Action.fire (Timer.nextTick Callback.DashInAction))

/-- An engine instance to run the model on concrete inputs.  `Length` and
`Normalize` are exact on vectors along one coordinate axis; `FInterpTo` and
`VInterpTo` move by the fraction `clamp (DeltaTime * InterpSpeed) 0 1` of the
remaining distance. -/
def axisEngine : Engine where
  Length := fun v => |v.X| + |v.Y| + |v.Z|
  Normalize := fun v =>
    if |v.X| + |v.Y| + |v.Z| = 0 then v else (1 / (|v.X| + |v.Y| + |v.Z|)) • v
  FInterpTo := fun c t dt speed =>
    if speed ≤ 0 then t else c + max 0 (min 1 (dt * speed)) * (t - c)
  VInterpTo := fun c t dt speed =>
    if speed ≤ 0 then t else c + max 0 (min 1 (dt * speed)) • (t - c)

/-! ## Single-precision arithmetic

`DashAlpha` is a `float`, so `DashAlpha += GetWorld()->GetDeltaSeconds() / 0.5f`
rounds the quotient and the sum to binary32, to nearest with ties to even.
Values beyond the largest finite binary32 number are not rounded to infinity;
they are above 1 either way, which is all the branch of `DashInAction` tests. -/

/-- The binary32 exponent of `x`: the `e` with `2 ^ e ≤ |x| < 2 ^ (e + 1)`, and
`-126` for zero and below the normal range. -/
def binade (x : ℚ) : ℤ := max (Int.log 2 |x|) (-126)

/-- The nearest integer, the even one of two equally near. -/
def roundHalfEven (y : ℚ) : ℤ :=
  if y - ⌊y⌋ < 1 / 2 then ⌊y⌋
  else if 1 / 2 < y - ⌊y⌋ then ⌊y⌋ + 1
  else if ⌊y⌋ % 2 = 0 then ⌊y⌋ else ⌊y⌋ + 1

/-- The binary32 value nearest to `x`: a multiple of `2 ^ (binade x - 23)`, so
with a 24-bit significand. -/
def binary32 (x : ℚ) : ℚ :=
  roundHalfEven (x / 2 ^ (binade x - 23)) * 2 ^ (binade x - 23)

/-- Source `AtestProjectCharacter::DashInAction`, with the `float` arithmetic on
`DashAlpha` rounded: the quotient `dt / 0.5f`, then the sum.  The request is the
exact interpolation at the rounded `DashAlpha`. -/
def DashInAction_binary32 (w : World) (s : State) : State :=
  if s.DashAlpha ≤ 1 then
    let alpha := binary32 (s.DashAlpha + binary32 (w.DeltaSeconds / (1 / 2)))
    { s with
      DashAlpha := alpha
      moves := s.moves ++
        [(Lerp s.StartLocation (s.StartLocation + (1000 : ℚ) • s.ForwardVector) alpha, true)]
      timers := s.timers ++ [Timer.nextTick Callback.DashInAction] }
  else
    { s with MaxWalkSpeed := 500, bPauseAnims := false }

/-- Source `AtestProjectCharacter::Client_DashMulti_Implementation`, calling the
rounded `DashInAction`. -/
def Client_DashMulti_Implementation_binary32 (E : Engine) (w : World) (s : State) : State :=
  DashInAction_binary32 w (dashBegin E w s)

/-- Running a bound callback, `DashInAction` rounded. -/
def callback_binary32 (E : Engine) (w : World) : Callback → State → State
  | Callback.DashCooldownReset => DashCooldownReset
  | Callback.DashInAction => DashInAction_binary32 w
  | Callback.AimCameraInterp => AimCameraInterp E w

/-- Running the body of an RPC, `DashInAction` rounded. -/
def implementation_binary32 (E : Engine) (w : World) : Rpc → State → State
  | Rpc.Server_Dash => Server_Dash_Implementation
  | Rpc.Client_DashMulti => Client_DashMulti_Implementation_binary32 E w
  | Rpc.Server_Aim b => Server_Aim_Implementation b
  | Rpc.Client_AimMulti b => Client_AimMulti_Implementation w b

/-- One step of an execution, `DashInAction` rounded. -/
def step_binary32 (E : Engine) (e : World × Action) (s : State) : Option State :=
  match e.2 with
  | Action.Dash => some (Dash s)
  | Action.Aim => some (Aim E e.1 s)
  | Action.AimStop => some (AimStop E e.1 s)
  | Action.deliver r =>
    if r ∈ s.rpcs then
      some (implementation_binary32 E e.1 r { s with rpcs := s.rpcs.erase r })
    else none
  | Action.fire t =>
    if t ∈ s.timers then
      some (callback_binary32 E e.1 t.cb { s with timers := t.fired s.timers })
    else none

/-- An execution, `DashInAction` rounded. -/
def run_binary32 (E : Engine) : List (World × Action) → State → Option State
  | [], s => some s
  | e :: es, s => (step_binary32 E e s).bind (run_binary32 E es)

/-- The `DashAlpha` after `n` moving calls of the rounded `DashInAction` in
frames of delta `dt`, from `DashAlpha = 0`. -/
def dashAlpha32 (dt : ℚ) : ℕ → ℚ
  | 0 => 0
  | n + 1 => binary32 (dashAlpha32 dt n + binary32 (dt / (1 / 2)))

/-! ## Lemmas on vectors -/

namespace FVector

@[simp] theorem add_X (a b : FVector) : (a + b).X = a.X + b.X := rfl
@[simp] theorem add_Y (a b : FVector) : (a + b).Y = a.Y + b.Y := rfl
@[simp] theorem add_Z (a b : FVector) : (a + b).Z = a.Z + b.Z := rfl
@[simp] theorem sub_X (a b : FVector) : (a - b).X = a.X - b.X := rfl
@[simp] theorem sub_Y (a b : FVector) : (a - b).Y = a.Y - b.Y := rfl
@[simp] theorem sub_Z (a b : FVector) : (a - b).Z = a.Z - b.Z := rfl
@[simp] theorem smul_X (k : ℚ) (v : FVector) : (k • v).X = k * v.X := rfl
@[simp] theorem smul_Y (k : ℚ) (v : FVector) : (k • v).Y = k * v.Y := rfl
@[simp] theorem smul_Z (k : ℚ) (v : FVector) : (k • v).Z = k * v.Z := rfl

@[ext] theorem ext (a b : FVector) (hx : a.X = b.X) (hy : a.Y = b.Y) (hz : a.Z = b.Z) :
    a = b := by
  cases a; cases b; simp_all

end FVector

/-- The linear interpolation from `A` to `A + D` is `A + Alpha • D`. -/
theorem Lerp_add (A D : FVector) (a : ℚ) : Lerp A (A + D) a = A + a • D := by
  ext <;> simp [Lerp]

/-! ## One call of `DashInAction` -/

/-- C4: on an enhanced input component `SetupPlayerInputComponent` registers
exactly the seven bindings, in order, and logs nothing; on any other component,
or on a null pointer, it registers no binding and logs one error. -/
theorem SetupPlayerInputComponent_bindings (c : UInputComponent) :
    (SetupPlayerInputComponent (some { c with enhanced := true }) =
      (some { enhanced := true, bindings := c.bindings ++
        [ ⟨InputAction.JumpAction, ETriggerEvent.Started, Handler.Jump⟩,
          ⟨InputAction.JumpAction, ETriggerEvent.Completed, Handler.StopJumping⟩,
          ⟨InputAction.MoveAction, ETriggerEvent.Triggered, Handler.Move⟩,
          ⟨InputAction.LookAction, ETriggerEvent.Triggered, Handler.Look⟩,
          ⟨InputAction.DashAction, ETriggerEvent.Started, Handler.Dash⟩,
          ⟨InputAction.AimAction, ETriggerEvent.Started, Handler.Aim⟩,
          ⟨InputAction.AimAction, ETriggerEvent.Completed, Handler.AimStop⟩ ] }, [])) ∧
    (SetupPlayerInputComponent (some { c with enhanced := false }) =
      (some { c with enhanced := false }, [LogLine.TemplateCharacterError])) ∧
    (SetupPlayerInputComponent none = (none, [LogLine.TemplateCharacterError])) := by
  simp [SetupPlayerInputComponent]

/-! ## Aim down sights -/

/-- `AimCameraInterp` writes only the camera boom, `InterpTimer` and the timers. -/
theorem AimCameraInterp_frame (E : Engine) (w : World) (s : State) :
    (AimCameraInterp E w s).ADS = s.ADS ∧
    (AimCameraInterp E w s).DashCD = s.DashCD ∧
    (AimCameraInterp E w s).MaxWalkSpeed = s.MaxWalkSpeed ∧
    (AimCameraInterp E w s).fTargetCameraInterp = s.fTargetCameraInterp ∧
    (AimCameraInterp E w s).vTargetCameraInterp = s.vTargetCameraInterp ∧
    (AimCameraInterp E w s).StartLocation = s.StartLocation ∧
    (AimCameraInterp E w s).ForwardVector = s.ForwardVector ∧
    (AimCameraInterp E w s).DashAlpha = s.DashAlpha ∧
    (AimCameraInterp E w s).bPauseAnims = s.bPauseAnims ∧
    (AimCameraInterp E w s).moves = s.moves ∧
    (AimCameraInterp E w s).rpcs = s.rpcs := by
  simp only [AimCameraInterp]
  split_ifs <;> simp

/-- What `Aim` and `AimStop` leave in the flag, the walk speed and the camera
targets. -/
theorem Aim_post (E : Engine) (w : World) (s : State) :
    ((Aim E w s).ADS = true ∧ (Aim E w s).MaxWalkSpeed = 250 ∧
      (Aim E w s).fTargetCameraInterp = 100 ∧
      (Aim E w s).vTargetCameraInterp = ⟨0, 50, 30⟩) ∧
    ((AimStop E w s).ADS = false ∧ (AimStop E w s).MaxWalkSpeed = 500 ∧
      (AimStop E w s).fTargetCameraInterp = 200 ∧
      (AimStop E w s).vTargetCameraInterp = ⟨0, 100, 0⟩) := by
  constructor
  · simp only [Aim]
    split_ifs <;> simp [AimCameraInterp_frame]
  · simp only [AimStop]
    split_ifs <;> simp [AimCameraInterp_frame]

/-- C6: after `Aim`, `ADS` is true, `MaxWalkSpeed` is 250 and the camera targets
are 100 and (0, 50, 30); after `AimStop`, `ADS` is false, `MaxWalkSpeed` is 500
and the camera targets are 200 and (0, 100, 0); `Client_AimMulti(b)` on an
instance that is not locally controlled sets `ADS` to `b` and `MaxWalkSpeed` to
250 if `b` and 500 otherwise, and on a locally controlled instance it changes
nothing. -/
theorem Aim_sets_flag_and_speed (E : Engine) (w : World) (s : State) (b : Bool) :
    ((Aim E w s).ADS = true ∧ (Aim E w s).MaxWalkSpeed = 250 ∧
      (Aim E w s).fTargetCameraInterp = 100 ∧
      (Aim E w s).vTargetCameraInterp = ⟨0, 50, 30⟩) ∧
    ((AimStop E w s).ADS = false ∧ (AimStop E w s).MaxWalkSpeed = 500 ∧
      (AimStop E w s).fTargetCameraInterp = 200 ∧
      (AimStop E w s).vTargetCameraInterp = ⟨0, 100, 0⟩) ∧
    (Client_AimMulti_Implementation { w with IsLocallyControlled := false } b s =
      { s with ADS := b, MaxWalkSpeed := if b then 250 else 500 }) ∧
    (Client_AimMulti_Implementation { w with IsLocallyControlled := true } b s = s) := by
  refine ⟨(Aim_post E w s).1, (Aim_post E w s).2, ?_, ?_⟩
  · cases b <;> simp [Client_AimMulti_Implementation]
  · simp [Client_AimMulti_Implementation]

/-! ## The server-side RPC bodies -/

/-- C7: in every state, whatever `DashCD` and `ADS` are,
`Server_Dash_Implementation` invokes `Client_DashMulti` once and changes nothing
else, and what it invokes does not depend on the state; the gates are in `Dash`,
which invokes nothing when `ADS` or `DashCD` is true.
`Server_Aim_Implementation b` invokes `Client_AimMulti b` and changes nothing
else. -/
theorem Server_Dash_forwards (s s' : State) (b : Bool) :
    Server_Dash_Implementation s = { s with rpcs := s.rpcs ++ [Rpc.Client_DashMulti] } ∧
    (Server_Dash_Implementation { s with DashCD := true }).rpcs =
      s.rpcs ++ [Rpc.Client_DashMulti] ∧
    (Server_Dash_Implementation { s with ADS := true }).rpcs =
      s.rpcs ++ [Rpc.Client_DashMulti] ∧
    (Server_Dash_Implementation s).rpcs.drop s.rpcs.length =
      (Server_Dash_Implementation s').rpcs.drop s'.rpcs.length ∧
    Dash { s with DashCD := true } = { s with DashCD := true } ∧
    Dash { s with ADS := true } = { s with ADS := true } ∧
    Server_Aim_Implementation b s = { s with rpcs := s.rpcs ++ [Rpc.Client_AimMulti b] } ∧
    (Server_Aim_Implementation b s).rpcs.drop s.rpcs.length =
      (Server_Aim_Implementation b s').rpcs.drop s'.rpcs.length := by
  simp [Server_Dash_Implementation, Server_Aim_Implementation, Dash]

/-! ## Frame lemmas -/

/-- `DashInAction` leaves the flags, the camera members and the RPC queue alone. -/
theorem DashInAction_frame (w : World) (s : State) :
    (DashInAction w s).ADS = s.ADS ∧
    (DashInAction w s).DashCD = s.DashCD ∧
    (DashInAction w s).InterpTimer = s.InterpTimer ∧
    (DashInAction w s).StartLocation = s.StartLocation ∧
    (DashInAction w s).ForwardVector = s.ForwardVector ∧
    (DashInAction w s).rpcs = s.rpcs := by
  simp only [DashInAction]
  split_ifs <;> simp

/-- `Aim` and `AimStop` leave the dash members and the requests alone. -/
theorem Aim_frame (E : Engine) (w : World) (s : State) :
    ((Aim E w s).DashCD = s.DashCD ∧ (Aim E w s).StartLocation = s.StartLocation ∧
      (Aim E w s).ForwardVector = s.ForwardVector ∧ (Aim E w s).DashAlpha = s.DashAlpha ∧
      (Aim E w s).moves = s.moves ∧ (Aim E w s).bPauseAnims = s.bPauseAnims) ∧
    ((AimStop E w s).DashCD = s.DashCD ∧ (AimStop E w s).StartLocation = s.StartLocation ∧
      (AimStop E w s).ForwardVector = s.ForwardVector ∧
      (AimStop E w s).DashAlpha = s.DashAlpha ∧
      (AimStop E w s).moves = s.moves ∧ (AimStop E w s).bPauseAnims = s.bPauseAnims) := by
  constructor
  · simp only [Aim]
    split_ifs <;> simp [AimCameraInterp_frame]
  · simp only [AimStop]
    split_ifs <;> simp [AimCameraInterp_frame]

/-- `Aim` removes no registration from the timer manager. -/
theorem Aim_keeps_timers (E : Engine) (w : World) (s : State) (x : Timer)
    (hx : x ∈ s.timers) : x ∈ (Aim E w s).timers := by
  simp only [Aim, AimCameraInterp]
  split_ifs <;> simp [hx]

/-- `Client_AimMulti_Implementation` writes at most `ADS` and `MaxWalkSpeed`. -/
theorem Client_AimMulti_frame (w : World) (b : Bool) (s : State) :
    (Client_AimMulti_Implementation w b s).DashCD = s.DashCD ∧
    (Client_AimMulti_Implementation w b s).StartLocation = s.StartLocation ∧
    (Client_AimMulti_Implementation w b s).ForwardVector = s.ForwardVector ∧
    (Client_AimMulti_Implementation w b s).DashAlpha = s.DashAlpha ∧
    (Client_AimMulti_Implementation w b s).moves = s.moves := by
  simp only [Client_AimMulti_Implementation]
  split_ifs <;> simp

/-- An execution of a list of steps followed by another. -/
theorem run_append (E : Engine) (es fs : List (World × Action)) (s : State) :
    run E (es ++ fs) s = (run E es s).bind (run E fs) := by
  induction es generalizing s with
  | nil => simp [run]
  | cons e es ih =>
    simp only [List.cons_append, run]
    cases step E e s with
    | none => simp
    | some t => simp [ih]

/-! ## The dash cooldown -/

/-- A step that does not fire `DashCooldownReset` keeps `DashCD` set. -/
theorem step_keeps_DashCD (E : Engine) (e : World × Action) (s t : State)
    (he : ∀ tm, e.2 = Action.fire tm → tm.cb ≠ Callback.DashCooldownReset)
    (hs : step E e s = some t) (hcd : s.DashCD = true) : t.DashCD = true := by
  obtain ⟨w, a⟩ := e
  cases a with
  | Dash =>
    simp only [step, Option.some.injEq] at hs
    subst hs
    simp [Dash, hcd]
  | Aim =>
    simp only [step, Option.some.injEq] at hs
    subst hs
    simp [(Aim_frame E w s).1, hcd]
  | AimStop =>
    simp only [step, Option.some.injEq] at hs
    subst hs
    simp [(Aim_frame E w s).2, hcd]
  | deliver r =>
    simp only [step] at hs
    split_ifs at hs
    simp only [Option.some.injEq] at hs
    subst hs
    cases r with
    | Server_Dash => simp [implementation, Server_Dash_Implementation, hcd]
    | Client_DashMulti =>
      simp [implementation, Client_DashMulti_Implementation, DashInAction_frame, dashBegin, hcd]
    | Server_Aim b => simp [implementation, Server_Aim_Implementation, hcd]
    | Client_AimMulti b => simp [implementation, Client_AimMulti_frame, hcd]
  | fire tm =>
    have hne := he tm rfl
    simp only [step] at hs
    split_ifs at hs
    simp only [Option.some.injEq] at hs
    subst hs
    cases hcb : tm.cb with
    | DashCooldownReset => exact absurd hcb hne
    | DashInAction => simp [callback, DashInAction_frame, hcd]
    | AimCameraInterp => simp [callback, AimCameraInterp_frame, hcd]

/-- An execution that does not fire `DashCooldownReset` keeps `DashCD` set. -/
theorem run_keeps_DashCD (E : Engine) (evs : List (World × Action)) (s t : State)
    (he : ∀ e ∈ evs, ∀ tm, e.2 = Action.fire tm → tm.cb ≠ Callback.DashCooldownReset)
    (hs : run E evs s = some t) (hcd : s.DashCD = true) : t.DashCD = true := by
  induction evs generalizing s with
  | nil =>
    simp only [run, Option.some.injEq] at hs
    subst hs
    exact hcd
  | cons e es ih =>
    simp only [run] at hs
    cases h1 : step E e s with
    | none => simp [h1] at hs
    | some u =>
      rw [h1] at hs
      exact ih u (fun e' h' => he e' (List.mem_cons_of_mem _ h')) hs
        (step_keeps_DashCD E e s u (he e (List.mem_cons_self _ _)) h1 hcd)

/-- C5: `Dash` invokes `Server_Dash` if and only if `ADS` and `DashCD` are both
false; then it sets `DashCD` and registers one non-looping 1.0-second timer for
`DashCooldownReset`, and otherwise it changes nothing.  `DashCooldownReset`
clears `DashCD`.  After a `Dash` that invoked `Server_Dash`, in every state an
execution reaches without firing `DashCooldownReset`, `DashCD` is still set and a
further `Dash` changes nothing, so it invokes nothing. -/
theorem Dash_gate (E : Engine) (s : State) :
    ((Dash s).rpcs = s.rpcs ++ [Rpc.Server_Dash] ↔ (s.ADS = false ∧ s.DashCD = false)) ∧
    ((s.ADS = false ∧ s.DashCD = false) →
      Dash s = { s with
        DashCD := true
        timers := s.timers ++ [Timer.after Callback.DashCooldownReset 1 false]
        rpcs := s.rpcs ++ [Rpc.Server_Dash] }) ∧
    (¬ (s.ADS = false ∧ s.DashCD = false) → Dash s = s) ∧
    (DashCooldownReset s = { s with DashCD := false }) ∧
    ((s.ADS = false ∧ s.DashCD = false) →
      ∀ (evs : List (World × Action)) (t : State),
        (∀ e ∈ evs, ∀ tm, e.2 = Action.fire tm → tm.cb ≠ Callback.DashCooldownReset) →
        run E evs (Dash s) = some t → t.DashCD = true ∧ Dash t = t) := by
  refine ⟨?_, ?_, ?_, rfl, ?_⟩
  · cases hA : s.ADS <;> cases hD : s.DashCD <;> simp [Dash, hA, hD]
  · rintro ⟨hA, hD⟩
    simp [Dash, hA, hD]
  · cases hA : s.ADS <;> cases hD : s.DashCD <;> simp [Dash, hA, hD]
  · rintro ⟨hA, hD⟩ evs t hev hrun
    have ht : t.DashCD = true :=
      run_keeps_DashCD E evs (Dash s) t hev hrun (by simp [Dash, hA, hD])
    exact ⟨ht, by simp [Dash, ht]⟩

/-- C5 at a concrete execution: the constructed character dashes, the two RPCs
run, the dash steps once and the player presses dash again. -/
theorem Dash_gate_witness :
    (constructed.ADS = false ∧ constructed.DashCD = false) ∧
    (∃ t, run axisEngine
        [ (⟨1 / 4, ⟨0, 0, 0⟩, ⟨0, 0, 0⟩, ⟨1, 0, 0⟩, true⟩, Action.deliver Rpc.Server_Dash),
          (⟨1 / 4, ⟨0, 0, 0⟩, ⟨0, 0, 0⟩, ⟨1, 0, 0⟩, true⟩, Action.deliver Rpc.Client_DashMulti),
          (⟨1 / 4, ⟨0, 0, 0⟩, ⟨0, 0, 0⟩, ⟨1, 0, 0⟩, true⟩,
            Action.fire (Timer.nextTick Callback.DashInAction)),
          (⟨1 / 4, ⟨0, 0, 0⟩, ⟨0, 0, 0⟩, ⟨1, 0, 0⟩, true⟩, Action.Dash) ]
        (Dash constructed) = some t ∧ t.DashCD = true ∧ Dash t = t) := by
  refine ⟨⟨rfl, rfl⟩, ?_⟩
  have hrun : ∃ t, run axisEngine
        [ (⟨1 / 4, ⟨0, 0, 0⟩, ⟨0, 0, 0⟩, ⟨1, 0, 0⟩, true⟩, Action.deliver Rpc.Server_Dash),
          (⟨1 / 4, ⟨0, 0, 0⟩, ⟨0, 0, 0⟩, ⟨1, 0, 0⟩, true⟩, Action.deliver Rpc.Client_DashMulti),
          (⟨1 / 4, ⟨0, 0, 0⟩, ⟨0, 0, 0⟩, ⟨1, 0, 0⟩, true⟩,
            Action.fire (Timer.nextTick Callback.DashInAction)),
          (⟨1 / 4, ⟨0, 0, 0⟩, ⟨0, 0, 0⟩, ⟨1, 0, 0⟩, true⟩, Action.Dash) ]
        (Dash constructed) = some t := by
    simp [run, step, Dash, constructed, implementation, Server_Dash_Implementation,
      Client_DashMulti_Implementation, dashBegin, DashInAction, callback, Timer.cb,
      Timer.fired, List.erase_cons]
  obtain ⟨t, ht⟩ := hrun
  exact ⟨t, ht, (Dash_gate axisEngine constructed).2.2.2.2 ⟨rfl, rfl⟩ _ t
    (by simp [Timer.cb]) ht⟩

/-! ## The aim camera timer chain -/

/-- `AimCameraInterp`, called with `InterpTimer` set and no callback of its own
pending, ends with one callback pending exactly when `InterpTimer` is still set. -/
theorem AimCameraInterp_chain (E : Engine) (w : World) (x : State)
    (hc : x.timers.count (Timer.nextTick Callback.AimCameraInterp) = 0)
    (ht : x.InterpTimer = true) :
    (AimCameraInterp E w x).timers.count (Timer.nextTick Callback.AimCameraInterp) =
      if (AimCameraInterp E w x).InterpTimer then 1 else 0 := by
  simp only [AimCameraInterp]
  split_ifs <;> simp_all

/-- A step by `Aim`, `AimStop` or a fired `AimCameraInterp` keeps the number of
pending `AimCameraInterp` callbacks equal to 1 when `InterpTimer` is set and to 0
otherwise. -/
theorem step_keeps_chain (E : Engine) (e : World × Action) (s t : State)
    (he : e.2 = Action.Aim ∨ e.2 = Action.AimStop ∨
      e.2 = Action.fire (Timer.nextTick Callback.AimCameraInterp))
    (hs : step E e s = some t)
    (hinv : s.timers.count (Timer.nextTick Callback.AimCameraInterp) =
      if s.InterpTimer then 1 else 0) :
    t.timers.count (Timer.nextTick Callback.AimCameraInterp) =
      if t.InterpTimer then 1 else 0 := by
  obtain ⟨w, a⟩ := e
  rcases he with he | he | he <;> simp only at he <;> subst he
  · simp only [step, Option.some.injEq] at hs
    subst hs
    cases hT : s.InterpTimer with
    | true => simpa [Aim, hT] using hinv
    | false =>
      simp only [Aim, hT, Bool.not_false, if_true]
      exact AimCameraInterp_chain E w _ (by simpa [hT] using hinv) rfl
  · simp only [step, Option.some.injEq] at hs
    subst hs
    cases hT : s.InterpTimer with
    | true => simpa [AimStop, hT] using hinv
    | false =>
      simp only [AimStop, hT, Bool.not_false, if_true]
      exact AimCameraInterp_chain E w _ (by simpa [hT] using hinv) rfl
  · simp only [step] at hs
    split_ifs at hs with hmem
    simp only [Option.some.injEq] at hs
    subst hs
    have hpos : 0 < s.timers.count (Timer.nextTick Callback.AimCameraInterp) :=
      List.count_pos_iff.mpr hmem
    cases hT : s.InterpTimer with
    | false => simp [hT] at hinv; omega
    | true =>
      simp only [hT, if_true] at hinv
      simp only [callback, Timer.cb, Timer.fired]
      exact AimCameraInterp_chain E w _ (by simp [List.count_erase_self, hinv]) (by simp [hT])

/-- C3: in every state an execution of `Aim`, `AimStop` and timer-fired
`AimCameraInterp` steps reaches from a state with `InterpTimer` false and no
`AimCameraInterp` callback pending, at most one `AimCameraInterp` callback is
pending, and one is pending exactly when `InterpTimer` is true.  One call of
`AimCameraInterp` steps the arm length and the socket offset towards their
targets; it clears `InterpTimer` and registers nothing exactly when, after the
step, `TargetArmLength` equals `fTargetCameraInterp` and `SocketOffset` equals
`vTargetCameraInterp`, and otherwise it registers itself once for the next tick
and leaves `InterpTimer` as it was. -/
theorem AimCameraInterp_single_chain (E : Engine) :
    (∀ (s0 s : State) (evs : List (World × Action)),
      s0.InterpTimer = false →
      Timer.nextTick Callback.AimCameraInterp ∉ s0.timers →
      (∀ e ∈ evs, e.2 = Action.Aim ∨ e.2 = Action.AimStop ∨
        e.2 = Action.fire (Timer.nextTick Callback.AimCameraInterp)) →
      run E evs s0 = some s →
      s.timers.count (Timer.nextTick Callback.AimCameraInterp) ≤ 1 ∧
      (Timer.nextTick Callback.AimCameraInterp ∈ s.timers ↔ s.InterpTimer = true)) ∧
    (∀ (w : World) (x : State),
      (AimCameraInterp E w x).TargetArmLength =
        E.FInterpTo x.TargetArmLength x.fTargetCameraInterp w.DeltaSeconds 10 ∧
      (AimCameraInterp E w x).SocketOffset =
        E.VInterpTo x.SocketOffset x.vTargetCameraInterp w.DeltaSeconds 10 ∧
      (((AimCameraInterp E w x).InterpTimer = false ∧
          (AimCameraInterp E w x).timers = x.timers) ↔
        ((AimCameraInterp E w x).TargetArmLength = (AimCameraInterp E w x).fTargetCameraInterp ∧
          (AimCameraInterp E w x).SocketOffset = (AimCameraInterp E w x).vTargetCameraInterp)) ∧
      (¬ ((AimCameraInterp E w x).TargetArmLength = (AimCameraInterp E w x).fTargetCameraInterp ∧
          (AimCameraInterp E w x).SocketOffset = (AimCameraInterp E w x).vTargetCameraInterp) →
        (AimCameraInterp E w x).timers =
          x.timers ++ [Timer.nextTick Callback.AimCameraInterp] ∧
        (AimCameraInterp E w x).InterpTimer = x.InterpTimer)) := by
  constructor
  · intro s0 s evs h0 hp hev hrun
    have hinv : ∀ (evs : List (World × Action)) (a b : State),
        (∀ e ∈ evs, e.2 = Action.Aim ∨ e.2 = Action.AimStop ∨
          e.2 = Action.fire (Timer.nextTick Callback.AimCameraInterp)) →
        run E evs a = some b →
        a.timers.count (Timer.nextTick Callback.AimCameraInterp) =
          (if a.InterpTimer then 1 else 0) →
        b.timers.count (Timer.nextTick Callback.AimCameraInterp) =
          (if b.InterpTimer then 1 else 0) := by
      intro evs
      induction evs with
      | nil =>
        intro a b _ hr ha
        simp only [run, Option.some.injEq] at hr
        subst hr
        exact ha
      | cons e es ih =>
        intro a b hes hr ha
        simp only [run] at hr
        cases h1 : step E e a with
        | none => simp [h1] at hr
        | some u =>
          rw [h1] at hr
          exact ih u b (fun e' h' => hes e' (List.mem_cons_of_mem _ h')) hr
            (step_keeps_chain E e a u (hes e (List.mem_cons_self _ _)) h1 ha)
    have hs := hinv evs s0 s hev hrun (by simp [h0, List.count_eq_zero.mpr hp])
    cases hT : s.InterpTimer with
    | false =>
      simp only [hT] at hs
      simp only [Bool.false_eq_true, if_false] at hs
      exact ⟨by omega, by simpa using List.count_eq_zero.mp hs⟩
    | true =>
      simp only [hT, if_true] at hs
      exact ⟨by omega, by simpa using List.count_pos_iff.mp (by omega)⟩
  · intro w x
    simp only [AimCameraInterp]
    split_ifs with h
    · simp only [true_and]
      exact ⟨⟨fun _ => ⟨h.1, h.2.symm⟩, fun _ => trivial⟩,
        fun hn => absurd ⟨h.1, h.2.symm⟩ hn⟩
    · simp only [true_and]
      refine ⟨⟨fun hh => ?_, fun hh => absurd ⟨hh.1, hh.2.symm⟩ h⟩, fun _ => trivial⟩
      simp at hh

/-- C3 at a concrete execution: the constructed character aims, the camera
callback fires once and the player releases aim, in frames of 1/20 second. -/
theorem AimCameraInterp_single_chain_witness :
    constructed.InterpTimer = false ∧
    Timer.nextTick Callback.AimCameraInterp ∉ constructed.timers ∧
    ∃ t, run axisEngine
        [ (⟨1 / 20, ⟨0, 0, 0⟩, ⟨0, 0, 0⟩, ⟨1, 0, 0⟩, true⟩, Action.Aim),
          (⟨1 / 20, ⟨0, 0, 0⟩, ⟨0, 0, 0⟩, ⟨1, 0, 0⟩, true⟩,
            Action.fire (Timer.nextTick Callback.AimCameraInterp)),
          (⟨1 / 20, ⟨0, 0, 0⟩, ⟨0, 0, 0⟩, ⟨1, 0, 0⟩, true⟩, Action.AimStop) ]
        constructed = some t ∧
      t.timers.count (Timer.nextTick Callback.AimCameraInterp) ≤ 1 ∧
      (Timer.nextTick Callback.AimCameraInterp ∈ t.timers ↔ t.InterpTimer = true) := by
  have h0 : Timer.nextTick Callback.AimCameraInterp ∉ constructed.timers := by
    simp [constructed]
  have hrun : ∃ t, run axisEngine
        [ (⟨1 / 20, ⟨0, 0, 0⟩, ⟨0, 0, 0⟩, ⟨1, 0, 0⟩, true⟩, Action.Aim),
          (⟨1 / 20, ⟨0, 0, 0⟩, ⟨0, 0, 0⟩, ⟨1, 0, 0⟩, true⟩,
            Action.fire (Timer.nextTick Callback.AimCameraInterp)),
          (⟨1 / 20, ⟨0, 0, 0⟩, ⟨0, 0, 0⟩, ⟨1, 0, 0⟩, true⟩, Action.AimStop) ]
        constructed = some t := by
    simp [run, step, Aim, AimStop, AimCameraInterp, constructed, axisEngine, callback,
      Timer.cb, Timer.fired]
    norm_num
  obtain ⟨t, ht⟩ := hrun
  exact ⟨rfl, h0, t, ht,
    (AimCameraInterp_single_chain axisEngine).1 constructed t _ rfl h0 (by simp) ht⟩

/-! ## The dash timer chain -/

/-- Firing a pending `DashInAction` runs it on the state without that
registration. -/
theorem step_dashTick (E : Engine) (w : World) (d : ℚ) (s : State)
    (hp : Timer.nextTick Callback.DashInAction ∈ s.timers) :
    step E (dashTick w d) s =
      some (DashInAction { w with DeltaSeconds := d }
        { s with timers := s.timers.erase (Timer.nextTick Callback.DashInAction) }) := by
  simp [step, dashTick, hp, callback, Timer.cb, Timer.fired]

/-- A run of fired `DashInAction` calls, each entered with `DashAlpha ≤ 1`: all
take the moving branch.  `DashAlpha` grows by twice the sum of the frame deltas,
every call adds one request, the last request is the interpolation at the final
`DashAlpha`, and one callback stays pending. -/
theorem run_dash_moving (E : Engine) (w : World) (ds : List ℚ) (s : State)
    (hp : Timer.nextTick Callback.DashInAction ∈ s.timers)
    (hα : ∀ j < ds.length, s.DashAlpha + 2 * (ds.take j).sum ≤ 1)
    (hlast : s.moves.getLast? =
      some (s.StartLocation + s.DashAlpha • ((1000 : ℚ) • s.ForwardVector), true)) :
    ∃ t, run E (ds.map (dashTick w)) s = some t ∧
      t.DashAlpha = s.DashAlpha + 2 * ds.sum ∧
      t.StartLocation = s.StartLocation ∧
      t.ForwardVector = s.ForwardVector ∧
      t.moves.length = s.moves.length + ds.length ∧
      t.moves.getLast? =
        some (t.StartLocation + t.DashAlpha • ((1000 : ℚ) • t.ForwardVector), true) ∧
      Timer.nextTick Callback.DashInAction ∈ t.timers ∧
      t.timers.count (Timer.nextTick Callback.DashInAction) =
        s.timers.count (Timer.nextTick Callback.DashInAction) ∧
      t.bPauseAnims = s.bPauseAnims ∧
      t.MaxWalkSpeed = s.MaxWalkSpeed ∧
      t.ADS = s.ADS := by
  induction ds generalizing s with
  | nil => exact ⟨s, by simp [run], by simp, rfl, rfl, by simp, hlast, hp, rfl, rfl, rfl, rfl⟩
  | cons d rest ih =>
    have h0 : s.DashAlpha ≤ 1 := by simpa using hα 0 (by simp)
    have hcount : 0 < s.timers.count (Timer.nextTick Callback.DashInAction) :=
      List.count_pos_iff.mpr hp
    obtain ⟨t, hrun, hA, hS, hF, hlen, hl, hpt, hc, hb, hm, hads⟩ :=
      ih (DashInAction { w with DeltaSeconds := d }
          { s with timers := s.timers.erase (Timer.nextTick Callback.DashInAction) })
        (by simp [DashInAction, h0])
        (by
          intro j hj
          have := hα (j + 1) (by simpa using hj)
          simp only [List.take_succ_cons, List.sum_cons] at this
          simp only [DashInAction, h0, if_true]
          linarith)
        (by simp [DashInAction, h0, Lerp_add])
    refine ⟨t, ?_, ?_, ?_, ?_, ?_, hl, hpt, ?_, ?_, ?_, ?_⟩
    · simp only [List.map_cons, run, step_dashTick E w d s hp, Option.some_bind]
      exact hrun
    · rw [hA]
      simp only [DashInAction, h0, if_true, List.sum_cons]
      ring
    · rw [hS]
      simp [DashInAction, h0]
    · rw [hF]
      simp [DashInAction, h0]
    · rw [hlen]
      simp [DashInAction, h0]
      ring
    · rw [hc]
      simp only [DashInAction, h0, if_true, List.count_append, List.count_erase_self]
      simp
      omega
    · rw [hb]
      simp [DashInAction, h0]
    · rw [hm]
      simp [DashInAction, h0]
    · rw [hads]
      simp [DashInAction, h0]

/-- The state `Client_DashMulti_Implementation` leaves: the dash members are
set, the first request is made and one `DashInAction` is registered. -/
theorem Client_DashMulti_first (E : Engine) (w : World) (s : State) :
    (Client_DashMulti_Implementation E w s).DashAlpha = 2 * w.DeltaSeconds ∧
    (Client_DashMulti_Implementation E w s).StartLocation = w.ActorLocation ∧
    (Client_DashMulti_Implementation E w s).ForwardVector = E.Normalize (dashDirection E w) ∧
    (Client_DashMulti_Implementation E w s).moves = s.moves ++
      [(w.ActorLocation +
        (2 * w.DeltaSeconds) • ((1000 : ℚ) • E.Normalize (dashDirection E w)), true)] ∧
    (Client_DashMulti_Implementation E w s).timers =
      s.timers ++ [Timer.nextTick Callback.DashInAction] ∧
    (Client_DashMulti_Implementation E w s).bPauseAnims = true ∧
    (Client_DashMulti_Implementation E w s).MaxWalkSpeed = s.MaxWalkSpeed ∧
    (Client_DashMulti_Implementation E w s).ADS = s.ADS := by
  have h2 : w.DeltaSeconds * 2 = 2 * w.DeltaSeconds := by ring
  simp [Client_DashMulti_Implementation, DashInAction, dashBegin, Lerp_add, h2]

/-- With a frame delta `dt > 0`, every count up to `⌊1 / (2 dt)⌋` of frames
leaves `DashAlpha` at most 1. -/
theorem frames_below (dt : ℚ) (hdt : 0 < dt) (j : ℕ) (h : j ≤ ⌊1 / (2 * dt)⌋₊) :
    2 * (j : ℚ) * dt ≤ 1 := by
  have h1 : (j : ℚ) ≤ 1 / (2 * dt) :=
    le_trans (Nat.cast_le.mpr h) (Nat.floor_le (by positivity))
  rw [le_div_iff₀ (by positivity)] at h1
  linarith

/-- With a frame delta `dt > 0`, `⌊1 / (2 dt)⌋ + 1` frames take `DashAlpha`
above 1. -/
theorem frames_above (dt : ℚ) (hdt : 0 < dt) :
    1 < 2 * ((⌊1 / (2 * dt)⌋₊ : ℚ) + 1) * dt := by
  have h1 : 1 / (2 * dt) < (⌊1 / (2 * dt)⌋₊ : ℚ) + 1 := Nat.lt_floor_add_one _
  rw [div_lt_iff₀ (by positivity)] at h1
  linarith

/-! ## Single-precision rounding -/

/-- Rounding to the nearest integer moves by at most a half. -/
theorem roundHalfEven_sub_le (y : ℚ) : |(roundHalfEven y : ℚ) - y| ≤ 1 / 2 := by
  have h1 := Int.floor_le y
  have h2 := Int.lt_floor_add_one y
  unfold roundHalfEven
  split_ifs with ha hb hc
  · rw [abs_le]; constructor <;> linarith
  · rw [abs_le]; push_cast; constructor <;> linarith
  · rw [abs_le]; constructor <;> linarith
  · rw [abs_le]; push_cast; constructor <;> linarith

/-- An integer nearer than a half is the nearest integer. -/
theorem roundHalfEven_eq (y : ℚ) (n : ℤ) (h : |y - n| < 1 / 2) : roundHalfEven y = n := by
  have h0 := roundHalfEven_sub_le y
  rw [abs_lt] at h
  rw [abs_le] at h0
  have h3 : |((roundHalfEven y - n : ℤ) : ℚ)| < 1 := by
    rw [abs_lt]; push_cast; constructor <;> linarith
  have h4 : |roundHalfEven y - n| < 1 := by exact_mod_cast h3
  have := Int.abs_lt_one_iff.mp h4
  omega

/-- The exponent of a value in the normal range. -/
theorem binade_eq (x : ℚ) (e : ℤ) (he : -126 ≤ e) (h1 : (2 : ℚ) ^ e ≤ |x|)
    (h2 : |x| < (2 : ℚ) ^ (e + 1)) : binade x = e := by
  have hpos : 0 < |x| := lt_of_lt_of_le (by positivity) h1
  have hb : (1 : ℕ) < 2 := by norm_num
  have h3 : e ≤ Int.log 2 |x| := (Int.zpow_le_iff_le_log hb hpos).mp (by exact_mod_cast h1)
  have h4 : Int.log 2 |x| < e + 1 := (Int.lt_zpow_iff_log_lt hb hpos).mp (by exact_mod_cast h2)
  unfold binade
  omega

/-- The binary32 value of `x`, from its exponent and its rounded significand. -/
theorem binary32_eq (x : ℚ) (e n : ℤ) (he : -126 ≤ e) (h1 : (2 : ℚ) ^ e ≤ |x|)
    (h2 : |x| < (2 : ℚ) ^ (e + 1)) (hn : |x / 2 ^ (e - 23) - n| < 1 / 2) :
    binary32 x = n * 2 ^ (e - 23) := by
  unfold binary32
  rw [binade_eq x e he h1 h2, roundHalfEven_eq _ n hn]


/-- Rounding keeps a non-negative value non-negative. -/
theorem roundHalfEven_nonneg (y : ℚ) (hy : 0 ≤ y) : 0 ≤ roundHalfEven y := by
  have h1 : 0 ≤ ⌊y⌋ := Int.floor_nonneg.mpr hy
  unfold roundHalfEven
  split_ifs <;> omega

/-- Zero is a binary32 value. -/
theorem binary32_zero : binary32 0 = 0 := by
  simp [binary32, roundHalfEven]

/-- The binary32 value of a non-negative value is non-negative. -/
theorem binary32_nonneg (x : ℚ) (hx : 0 ≤ x) : 0 ≤ binary32 x := by
  unfold binary32
  have hq : (0 : ℚ) < 2 ^ (binade x - 23) := by positivity
  have := roundHalfEven_nonneg (x / 2 ^ (binade x - 23)) (div_nonneg hx hq.le)
  have h2 : (0 : ℚ) ≤ (roundHalfEven (x / 2 ^ (binade x - 23)) : ℚ) := by exact_mod_cast this
  positivity

/-- Values up to 2 have exponent at most 1. -/
theorem binade_le_one (x : ℚ) (h0 : 0 ≤ x) (h2 : x ≤ 2) : binade x ≤ 1 := by
  unfold binade
  rcases h0.eq_or_lt with h | h
  · rw [← h]
    simp [Int.log_of_right_le_zero]
  · have hb : (1 : ℕ) < 2 := by norm_num
    have hlt : |x| < ((2 : ℕ) : ℚ) ^ (2 : ℤ) := by
      rw [abs_of_pos h]
      norm_num
      linarith
    have := (Int.lt_zpow_iff_log_lt hb (abs_pos.mpr h.ne')).mp hlt
    omega

/-- Rounding a value between 0 and 2 to binary32 moves it by at most `2 ^ (-23)`. -/
theorem binary32_error (x : ℚ) (h0 : 0 ≤ x) (h2 : x ≤ 2) :
    |binary32 x - x| ≤ 1 / 8388608 := by
  have hb := binade_le_one x h0 h2
  have hq : (0 : ℚ) < 2 ^ (binade x - 23) := by positivity
  have hq2 : (2 : ℚ) ^ (binade x - 23) ≤ 2 ^ (-22 : ℤ) :=
    zpow_le_zpow_right₀ (by norm_num) (by omega)
  have hr := roundHalfEven_sub_le (x / 2 ^ (binade x - 23))
  have hx : x = x / 2 ^ (binade x - 23) * 2 ^ (binade x - 23) := by
    field_simp
  have heq : binary32 x - x =
      ((roundHalfEven (x / 2 ^ (binade x - 23)) : ℚ) - x / 2 ^ (binade x - 23)) *
        2 ^ (binade x - 23) := by
    unfold binary32
    rw [sub_mul, ← hx]
  rw [heq, abs_mul, abs_of_pos hq]
  have h22 : (2 : ℚ) ^ (-22 : ℤ) = 1 / 4194304 := by norm_num
  rw [h22] at hq2
  calc |(roundHalfEven (x / 2 ^ (binade x - 23)) : ℚ) - x / 2 ^ (binade x - 23)| *
        2 ^ (binade x - 23)
      ≤ 1 / 2 * (1 / 4194304) := mul_le_mul hr hq2 hq.le (by norm_num)
    _ = 1 / 8388608 := by norm_num

/-- Dividing a binary32 frame delta of at least 1/2048 by `0.5f` is exact. -/
theorem binary32_double (dt : ℚ) (hf : binary32 dt = dt) (hlo : 1 / 2048 ≤ dt) :
    binary32 (dt / (1 / 2)) = 2 * dt := by
  have hpos : 0 < dt := lt_of_lt_of_le (by norm_num) hlo
  have hb : (1 : ℕ) < 2 := by norm_num
  have hL : (-11 : ℤ) ≤ Int.log 2 |dt| := by
    apply (Int.zpow_le_iff_le_log hb (abs_pos.mpr hpos.ne')).mp
    rw [abs_of_pos hpos]
    norm_num
    linarith
  have h2 : dt / (1 / 2) = dt * 2 := by ring
  have hlow : (2 : ℚ) ^ Int.log 2 |dt| ≤ |dt| := by
    exact_mod_cast Int.zpow_log_le_self hb (abs_pos.mpr hpos.ne')
  have hhigh : |dt| < (2 : ℚ) ^ (Int.log 2 |dt| + 1) := by
    exact_mod_cast Int.lt_zpow_succ_log_self hb |dt|
  have hb1 : binade dt = Int.log 2 |dt| := by unfold binade; omega
  have hb2 : binade (dt * 2) = Int.log 2 |dt| + 1 := by
    apply binade_eq _ _ (by omega)
    · rw [abs_mul, zpow_add_one₀ (by norm_num)]
      norm_num
      exact hlow
    · rw [abs_mul, zpow_add_one₀ (by norm_num : (2 : ℚ) ≠ 0) (Int.log 2 |dt| + 1)]
      norm_num
      exact hhigh
  have hq : (2 : ℚ) ^ (Int.log 2 |dt| + 1 - 23) = 2 ^ (Int.log 2 |dt| - 23) * 2 := by
    rw [show Int.log 2 |dt| + 1 - 23 = (Int.log 2 |dt| - 23) + 1 by ring, zpow_add_one₀ (by norm_num)]
  unfold binary32 at hf ⊢
  rw [hb1] at hf
  rw [h2, hb2, hq, mul_div_mul_right _ _ (by norm_num : (2 : ℚ) ≠ 0), ← mul_assoc, hf]
  ring

/-! ## The duration of a dash in single precision -/

/-- One more moving call rounds the sum of `DashAlpha` and the doubled delta. -/
theorem dashAlpha32_succ (dt : ℚ) (n : ℕ) :
    dashAlpha32 dt (n + 1) = binary32 (dashAlpha32 dt n + binary32 (dt / (1 / 2))) := rfl

/-- An execution of a list of steps followed by another, `DashInAction` rounded. -/
theorem run_binary32_append (E : Engine) (es fs : List (World × Action)) (s : State) :
    run_binary32 E (es ++ fs) s = (run_binary32 E es s).bind (run_binary32 E fs) := by
  induction es generalizing s with
  | nil => simp [run_binary32]
  | cons e es ih =>
    simp only [List.cons_append, run_binary32]
    cases step_binary32 E e s with
    | none => simp
    | some t => simp [ih]

/-- Firing a pending `DashInAction` runs the rounded call on the state without
that registration. -/
theorem step_binary32_dashTick (E : Engine) (w : World) (d : ℚ) (s : State)
    (hp : Timer.nextTick Callback.DashInAction ∈ s.timers) :
    step_binary32 E (dashTick w d) s =
      some (DashInAction_binary32 { w with DeltaSeconds := d }
        { s with timers := s.timers.erase (Timer.nextTick Callback.DashInAction) }) := by
  simp [step_binary32, dashTick, hp, callback_binary32, Timer.cb, Timer.fired]

/-- The state the rounded `Client_DashMulti_Implementation` leaves: one moving
call made, one request, one `DashInAction` registered. -/
theorem Client_DashMulti_binary32_first (E : Engine) (w : World) (s : State) :
    (Client_DashMulti_Implementation_binary32 E w s).DashAlpha =
      dashAlpha32 w.DeltaSeconds 1 ∧
    (Client_DashMulti_Implementation_binary32 E w s).moves.length = s.moves.length + 1 ∧
    (Client_DashMulti_Implementation_binary32 E w s).timers =
      s.timers ++ [Timer.nextTick Callback.DashInAction] ∧
    (Client_DashMulti_Implementation_binary32 E w s).bPauseAnims = true := by
  simp [Client_DashMulti_Implementation_binary32, DashInAction_binary32, dashBegin,
    dashAlpha32]

/-- A run of `k` fired calls of the rounded `DashInAction` with frame delta `dt`,
each entered with `DashAlpha ≤ 1`: every call requests once and registers
itself again. -/
theorem run_binary32_dash_moving (E : Engine) (w : World) (dt : ℚ) (k i : ℕ) (s : State)
    (hp : Timer.nextTick Callback.DashInAction ∈ s.timers)
    (hs : s.DashAlpha = dashAlpha32 dt i)
    (hα : ∀ j < k, dashAlpha32 dt (i + j) ≤ 1) :
    ∃ t, run_binary32 E (List.replicate k (dashTick w dt)) s = some t ∧
      t.DashAlpha = dashAlpha32 dt (i + k) ∧
      t.moves.length = s.moves.length + k ∧
      Timer.nextTick Callback.DashInAction ∈ t.timers ∧
      t.timers.count (Timer.nextTick Callback.DashInAction) =
        s.timers.count (Timer.nextTick Callback.DashInAction) ∧
      t.bPauseAnims = s.bPauseAnims := by
  induction k generalizing s i with
  | zero => exact ⟨s, by simp [run_binary32], by simpa using hs, by simp, hp, rfl, rfl⟩
  | succ k ih =>
    have h0 : s.DashAlpha ≤ 1 := by
      rw [hs]
      simpa using hα 0 (Nat.succ_pos k)
    have hcount : 0 < s.timers.count (Timer.nextTick Callback.DashInAction) :=
      List.count_pos_iff.mpr hp
    obtain ⟨t, hrun, hA, hlen, hpt, hc, hb⟩ :=
      ih (i + 1)
        (DashInAction_binary32 { w with DeltaSeconds := dt }
          { s with timers := s.timers.erase (Timer.nextTick Callback.DashInAction) })
        (by simp [DashInAction_binary32, h0])
        (by rw [dashAlpha32_succ, ← hs]; simp [DashInAction_binary32, h0])
        (by
          intro j hj
          have := hα (j + 1) (by omega)
          rwa [show i + 1 + j = i + (j + 1) by omega])
    refine ⟨t, ?_, ?_, ?_, hpt, ?_, ?_⟩
    · simp only [List.replicate_succ, run_binary32, step_binary32_dashTick E w dt s hp,
        Option.some_bind]
      exact hrun
    · rw [hA, show i + 1 + k = i + (k + 1) by omega]
    · rw [hlen]
      simp [DashInAction_binary32, h0]
      ring
    · rw [hc]
      simp only [DashInAction_binary32, h0, if_true, List.count_append, List.count_erase_self]
      simp
      omega
    · rw [hb]
      simp [DashInAction_binary32, h0]

/-- While every earlier call was entered with `DashAlpha ≤ 1`, the rounded
`DashAlpha` after `n` calls is within `n · 2 ^ (-23)` of `n` times the doubled
delta. -/
theorem dashAlpha32_error (dt h : ℚ) (hh : binary32 (dt / (1 / 2)) = h)
    (h0 : 0 ≤ h) (h1 : h ≤ 1) (n : ℕ) (hprev : ∀ i < n, dashAlpha32 dt i ≤ 1) :
    0 ≤ dashAlpha32 dt n ∧ |dashAlpha32 dt n - n * h| ≤ n * (1 / 8388608) := by
  induction n with
  | zero => simp [dashAlpha32]
  | succ n ih =>
    obtain ⟨hn0, hne⟩ := ih (fun i hi => hprev i (Nat.lt_succ_of_lt hi))
    have hle := hprev n (Nat.lt_succ_self n)
    have hx0 : 0 ≤ dashAlpha32 dt n + h := by linarith
    have hx2 : dashAlpha32 dt n + h ≤ 2 := by linarith
    have herr := binary32_error _ hx0 hx2
    have hdef : dashAlpha32 dt (n + 1) = binary32 (dashAlpha32 dt n + h) := by
      rw [dashAlpha32_succ, hh]
    refine ⟨by rw [hdef]; exact binary32_nonneg _ hx0, ?_⟩
    rw [hdef]
    push_cast
    rw [abs_le] at herr hne ⊢
    constructor <;> linarith

/-- With a doubled delta `h` between `2 ^ (-10)` and 1, `n` calls at `2 ^ (-23)`
of error each stay within `h` as long as `n h ≤ 3`. -/
theorem rounding_budget (h : ℚ) (hlo : 1 / 1024 ≤ h) (n : ℕ) (hn : (n : ℚ) * h ≤ 3) :
    (n : ℚ) * (1 / 8388608) ≤ h := by
  by_contra hlt
  push_neg at hlt
  have hpos : 0 < h := lt_of_lt_of_le (by norm_num) hlo
  have e1 : h * h < (n : ℚ) * (1 / 8388608) * h := mul_lt_mul_of_pos_right hlt hpos
  have e3 : (1 / 1024 : ℚ) * (1 / 1024) ≤ h * h :=
    mul_le_mul hlo hlo (by norm_num) hpos.le
  linarith

/-- The first `M - 1` rounded sums stay at most 1 when `M h ≤ 1`. -/
theorem dashAlpha32_below (dt h : ℚ) (hh : binary32 (dt / (1 / 2)) = h)
    (hlo : 1 / 1024 ≤ h) (h1 : h ≤ 1) (M : ℕ) (hM : (M : ℚ) * h ≤ 1) :
    ∀ n : ℕ, n + 1 ≤ M → dashAlpha32 dt n ≤ 1 := by
  have hpos : 0 < h := lt_of_lt_of_le (by norm_num) hlo
  intro n
  induction n using Nat.strong_induction_on with
  | _ n ih =>
    intro hn
    obtain ⟨-, he⟩ := dashAlpha32_error dt h hh hpos.le h1 n
      (fun i hi => ih i hi (by omega))
    rw [abs_le] at he
    have hcast : ((n : ℚ) + 1) * h ≤ (M : ℚ) * h :=
      mul_le_mul_of_nonneg_right (by exact_mod_cast hn) hpos.le
    have hbud := rounding_budget h hlo n (by linarith)
    linarith [he.2]

/-- One of the first `M + 2` rounded sums exceeds 1 when `(M + 1) h > 1`. -/
theorem dashAlpha32_exceeds (dt h : ℚ) (hh : binary32 (dt / (1 / 2)) = h)
    (hlo : 1 / 1024 ≤ h) (h1 : h ≤ 1) (M : ℕ) (hM : (M : ℚ) * h ≤ 1)
    (hM1 : 1 < ((M : ℚ) + 1) * h) :
    ∃ n : ℕ, n ≤ M + 2 ∧ 1 < dashAlpha32 dt n := by
  have hpos : 0 < h := lt_of_lt_of_le (by norm_num) hlo
  by_contra hno
  push_neg at hno
  obtain ⟨-, he⟩ := dashAlpha32_error dt h hh hpos.le h1 (M + 2)
    (fun i hi => hno i hi.le)
  rw [abs_le] at he
  have hbud := rounding_budget h hlo (M + 2) (by push_cast; linarith)
  have hlast := hno (M + 2) le_rfl
  push_cast at he hbud
  linarith [he.1]

/-- C2: in the binary32 arithmetic of the `float` member `DashAlpha`, a dash
started by `Client_DashMulti_Implementation` and stepped with a constant binary32
frame delta `dt`, `1/2048 ≤ dt ≤ 1/2`, takes the moving branch of `DashInAction`
`N` times for some `N` with `⌊1 / (2 dt)⌋ ≤ N ≤ ⌊1 / (2 dt)⌋ + 2`: after the
first call and `k` fired calls, for every `k < N`, there are `k + 1` new
requests, `bPauseAnims` is set and one more `DashInAction` is pending; the call
after these is entered with `DashAlpha > 1`, makes no request, registers
nothing, sets `MaxWalkSpeed` to 500 and clears `bPauseAnims`.  With `dt = 0`
every call takes the moving branch: `DashAlpha` stays 0 and a callback stays
pending. -/
theorem dash_duration_binary32 (E : Engine) (w : World) (s : State) :
    (∀ dt : ℚ, binary32 dt = dt → 1 / 2048 ≤ dt → dt ≤ 1 / 2 →
      ∃ N : ℕ, ⌊1 / (2 * dt)⌋₊ ≤ N ∧ N ≤ ⌊1 / (2 * dt)⌋₊ + 2 ∧
        (∀ k : ℕ, k < N →
          ∃ t, run_binary32 E (List.replicate k (dashTick w dt))
              (Client_DashMulti_Implementation_binary32 E { w with DeltaSeconds := dt } s)
                = some t ∧
            t.moves.length = s.moves.length + (k + 1) ∧
            t.timers.count (Timer.nextTick Callback.DashInAction) =
              s.timers.count (Timer.nextTick Callback.DashInAction) + 1 ∧
            t.bPauseAnims = true ∧
            (k + 1 < N → t.DashAlpha ≤ 1) ∧
            (k + 1 = N → 1 < t.DashAlpha)) ∧
        (∃ u, run_binary32 E (List.replicate N (dashTick w dt))
              (Client_DashMulti_Implementation_binary32 E { w with DeltaSeconds := dt } s)
                = some u ∧
            u.moves.length = s.moves.length + N ∧
            u.timers.count (Timer.nextTick Callback.DashInAction) =
              s.timers.count (Timer.nextTick Callback.DashInAction) ∧
            u.MaxWalkSpeed = 500 ∧
            u.bPauseAnims = false)) ∧
    (∀ k : ℕ,
      ∃ t, run_binary32 E (List.replicate k (dashTick w 0))
          (Client_DashMulti_Implementation_binary32 E { w with DeltaSeconds := 0 } s)
            = some t ∧
        t.moves.length = s.moves.length + (k + 1) ∧
        t.timers.count (Timer.nextTick Callback.DashInAction) =
          s.timers.count (Timer.nextTick Callback.DashInAction) + 1 ∧
        t.DashAlpha = 0 ∧ t.DashAlpha ≤ 1) := by
  constructor
  · intro dt hf hlo hhi
    classical
    have hpos : 0 < dt := lt_of_lt_of_le (by norm_num) hlo
    have hh : binary32 (dt / (1 / 2)) = 2 * dt := binary32_double dt hf hlo
    have hM : ((⌊1 / (2 * dt)⌋₊ : ℕ) : ℚ) * (2 * dt) ≤ 1 := by
      have := frames_below dt hpos ⌊1 / (2 * dt)⌋₊ le_rfl
      linarith
    have hM1 : 1 < (((⌊1 / (2 * dt)⌋₊ : ℕ) : ℚ) + 1) * (2 * dt) := by
      have := frames_above dt hpos
      linarith
    obtain ⟨n0, hn0, hgt⟩ := dashAlpha32_exceeds dt (2 * dt) hh (by linarith) (by linarith)
      ⌊1 / (2 * dt)⌋₊ hM hM1
    have hex : ∃ n : ℕ, 1 < dashAlpha32 dt n := ⟨n0, hgt⟩
    have hspec : 1 < dashAlpha32 dt (Nat.find hex) := Nat.find_spec hex
    have hmin : ∀ j : ℕ, j < Nat.find hex → dashAlpha32 dt j ≤ 1 :=
      fun j hj => not_lt.mp (Nat.find_min hex hj)
    have hNle : Nat.find hex ≤ ⌊1 / (2 * dt)⌋₊ + 2 := le_trans (Nat.find_min' hex hgt) hn0
    have hMle : ⌊1 / (2 * dt)⌋₊ ≤ Nat.find hex := by
      by_contra hlt
      push_neg at hlt
      have := dashAlpha32_below dt (2 * dt) hh (by linarith) (by linarith)
        ⌊1 / (2 * dt)⌋₊ hM (Nat.find hex) (by omega)
      linarith
    have hNpos : Nat.find hex ≠ 0 := by
      intro h0
      rw [h0] at hspec
      simp [dashAlpha32] at hspec
      linarith
    generalize Nat.find hex = N at hspec hmin hNle hMle hNpos
    obtain ⟨hA, hM0, hT, hB⟩ :=
      Client_DashMulti_binary32_first E { w with DeltaSeconds := dt } s
    have hmoving : ∀ k : ℕ, k < N →
        ∃ t, run_binary32 E (List.replicate k (dashTick w dt))
            (Client_DashMulti_Implementation_binary32 E { w with DeltaSeconds := dt } s)
              = some t ∧
          t.DashAlpha = dashAlpha32 dt (1 + k) ∧
          t.moves.length = s.moves.length + (k + 1) ∧
          Timer.nextTick Callback.DashInAction ∈ t.timers ∧
          t.timers.count (Timer.nextTick Callback.DashInAction) =
            s.timers.count (Timer.nextTick Callback.DashInAction) + 1 ∧
          t.bPauseAnims = true := by
      intro k hk
      obtain ⟨t, hrun, htA, hlen, hpt, hc, hb⟩ :=
        run_binary32_dash_moving E w dt k 1
          (Client_DashMulti_Implementation_binary32 E { w with DeltaSeconds := dt } s)
          (by rw [hT]; simp) hA (fun j hj => hmin (1 + j) (by omega))
      refine ⟨t, hrun, htA, ?_, hpt, ?_, ?_⟩
      · rw [hlen, hM0]
        omega
      · rw [hc, hT]
        simp
      · rw [hb, hB]
    refine ⟨N, hMle, hNle, ?_, ?_⟩
    · intro k hk
      obtain ⟨t, hrun, htA, hlen, -, hc, hb⟩ := hmoving k hk
      refine ⟨t, hrun, hlen, hc, hb, fun hk1 => ?_, fun hk1 => ?_⟩
      · rw [htA]
        exact hmin (1 + k) (by omega)
      · rw [htA, show 1 + k = N by omega]
        exact hspec
    · obtain ⟨n, hn⟩ := Nat.exists_eq_succ_of_ne_zero hNpos
      subst hn
      obtain ⟨t, hrun, htA, hlen, hpt, hc, -⟩ := hmoving n (Nat.lt_succ_self n)
      have hgt2 : ¬ t.DashAlpha ≤ 1 := by
        rw [htA, show 1 + n = n.succ by omega]
        exact not_le.mpr hspec
      refine ⟨DashInAction_binary32 { w with DeltaSeconds := dt }
        { t with timers := t.timers.erase (Timer.nextTick Callback.DashInAction) },
        ?_, ?_, ?_, ?_, ?_⟩
      · rw [List.replicate_succ', run_binary32_append, hrun]
        simp only [Option.some_bind, run_binary32, step_binary32_dashTick E w dt t hpt]
      · simp [DashInAction_binary32, hgt2, hlen]
      · simp [DashInAction_binary32, hgt2, hc]
      · simp [DashInAction_binary32, hgt2]
      · simp [DashInAction_binary32, hgt2]
  · intro k
    have hz : ∀ n : ℕ, dashAlpha32 0 n = 0 := by
      intro n
      induction n with
      | zero => rfl
      | succ n ih => rw [dashAlpha32_succ, ih]; simp [binary32_zero]
    obtain ⟨hA, hM0, hT, -⟩ :=
      Client_DashMulti_binary32_first E { w with DeltaSeconds := 0 } s
    obtain ⟨t, hrun, htA, hlen, -, hc, -⟩ :=
      run_binary32_dash_moving E w 0 k 1
        (Client_DashMulti_Implementation_binary32 E { w with DeltaSeconds := 0 } s)
        (by rw [hT]; simp) hA (fun j _ => by rw [hz]; norm_num)
    refine ⟨t, hrun, ?_, ?_, ?_, ?_⟩
    · rw [hlen, hM0]
      omega
    · rw [hc, hT]
      simp
    · rw [htA, hz]
    · rw [htA, hz]
      norm_num

/-- C2 at a concrete dash: the constructed character, a quarter second a frame
(a binary32 value). -/
theorem dash_duration_binary32_witness :
    binary32 (1 / 4) = 1 / 4 ∧ (1 / 2048 : ℚ) ≤ 1 / 4 ∧ (1 / 4 : ℚ) ≤ 1 / 2 ∧
    ∃ N : ℕ, ⌊1 / (2 * (1 / 4 : ℚ))⌋₊ ≤ N ∧ N ≤ ⌊1 / (2 * (1 / 4 : ℚ))⌋₊ + 2 ∧
      ∃ u, run_binary32 axisEngine
          (List.replicate N (dashTick ⟨0, ⟨0, 0, 0⟩, ⟨600, 0, 0⟩, ⟨1, 0, 0⟩, true⟩ (1 / 4)))
          (Client_DashMulti_Implementation_binary32 axisEngine
            { (⟨0, ⟨0, 0, 0⟩, ⟨600, 0, 0⟩, ⟨1, 0, 0⟩, true⟩ : World) with
              DeltaSeconds := 1 / 4 }
            constructed) = some u ∧
        u.moves.length = constructed.moves.length + N ∧
        u.timers.count (Timer.nextTick Callback.DashInAction) =
          constructed.timers.count (Timer.nextTick Callback.DashInAction) ∧
        u.MaxWalkSpeed = 500 ∧
        u.bPauseAnims = false := by
  have hf : binary32 (1 / 4) = 1 / 4 := by
    rw [binary32_eq (1 / 4) (-2) 8388608 (by norm_num) (by norm_num [abs_of_pos])
      (by norm_num [abs_of_pos]) (by norm_num [abs_lt])]
    norm_num
  obtain ⟨N, h1, h2, -, hfin⟩ :=
    (dash_duration_binary32 axisEngine ⟨0, ⟨0, 0, 0⟩, ⟨600, 0, 0⟩, ⟨1, 0, 0⟩, true⟩
      constructed).1 (1 / 4) hf (by norm_num) (by norm_num)
  exact ⟨hf, by norm_num, by norm_num, N, h1, h2, hfin⟩

/-- One moving call of the rounded dash, from the exponent `e` and the rounded
significand `m` of the sum. -/
theorem dashAlpha32_step (dt h a b : ℚ) (n : ℕ) (e m : ℤ)
    (hh : binary32 (dt / (1 / 2)) = h) (ha : dashAlpha32 dt n = a) (he : -126 ≤ e)
    (h1 : (2 : ℚ) ^ e ≤ |a + h|) (h2 : |a + h| < (2 : ℚ) ^ (e + 1))
    (hm : |(a + h) / 2 ^ (e - 23) - m| < 1 / 2) (hb : (m : ℚ) * 2 ^ (e - 23) = b) :
    dashAlpha32 dt (n + 1) = b := by
  rw [dashAlpha32_succ, hh, ha, binary32_eq (a + h) e m he h1 h2 hm, hb]

/-- The count `⌊1 / (2 dt)⌋ + 1` fails in single precision.  At 10 frames a
second the frame delta is the binary32 value `0.1f = 13421773 / 134217728`, for
which `⌊1 / (2 dt)⌋ + 1 = 5`; the rounded sums are `0.2f`, `0.4f`, `0.6f`,
`0.8f` and then exactly 1, so the sixth call still takes the moving branch:
after the first call and five fired calls there are six requests,
`bPauseAnims` is still set and a `DashInAction` is pending again. -/
theorem dash_duration_tenth_second :
    binary32 (13421773 / 134217728) = 13421773 / 134217728 ∧
    ⌊1 / (2 * (13421773 / 134217728 : ℚ))⌋₊ + 1 = 5 ∧
    ∃ t, run_binary32 axisEngine
        (List.replicate 5
          (dashTick ⟨0, ⟨0, 0, 0⟩, ⟨600, 0, 0⟩, ⟨1, 0, 0⟩, true⟩ (13421773 / 134217728)))
        (Client_DashMulti_Implementation_binary32 axisEngine
          { (⟨0, ⟨0, 0, 0⟩, ⟨600, 0, 0⟩, ⟨1, 0, 0⟩, true⟩ : World) with
            DeltaSeconds := 13421773 / 134217728 }
          constructed) = some t ∧
      t.moves.length = 6 ∧
      Timer.nextTick Callback.DashInAction ∈ t.timers ∧
      t.bPauseAnims = true ∧
      t.DashAlpha = 5033165 / 4194304 := by
  have hf : binary32 (13421773 / 134217728) = 13421773 / 134217728 := by
    rw [binary32_eq (13421773 / 134217728) (-4) 13421773 (by norm_num)
      (by norm_num [abs_of_pos]) (by norm_num [abs_of_pos]) (by norm_num [abs_lt])]
    norm_num
  have hh : binary32 ((13421773 / 134217728 : ℚ) / (1 / 2)) = 13421773 / 67108864 := by
    rw [binary32_eq ((13421773 / 134217728 : ℚ) / (1 / 2)) (-3) 13421773 (by norm_num)
      (by norm_num [abs_of_pos]) (by norm_num [abs_of_pos]) (by norm_num [abs_lt])]
    norm_num
  have a1 : dashAlpha32 (13421773 / 134217728) 1 = 13421773 / 67108864 :=
    dashAlpha32_step _ _ 0 _ 0 (-3) 13421773 hh rfl (by norm_num)
      (by norm_num [abs_of_pos]) (by norm_num [abs_of_pos]) (by norm_num [abs_lt])
      (by norm_num)
  have a2 : dashAlpha32 (13421773 / 134217728) 2 = 13421773 / 33554432 :=
    dashAlpha32_step _ _ _ _ 1 (-2) 13421773 hh a1 (by norm_num)
      (by norm_num [abs_of_pos]) (by norm_num [abs_of_pos]) (by norm_num [abs_lt])
      (by norm_num)
  have a3 : dashAlpha32 (13421773 / 134217728) 3 = 5033165 / 8388608 :=
    dashAlpha32_step _ _ _ _ 2 (-1) 10066330 hh a2 (by norm_num)
      (by norm_num [abs_of_pos]) (by norm_num [abs_of_pos]) (by norm_num [abs_lt])
      (by norm_num)
  have a4 : dashAlpha32 (13421773 / 134217728) 4 = 13421773 / 16777216 :=
    dashAlpha32_step _ _ _ _ 3 (-1) 13421773 hh a3 (by norm_num)
      (by norm_num [abs_of_pos]) (by norm_num [abs_of_pos]) (by norm_num [abs_lt])
      (by norm_num)
  have a5 : dashAlpha32 (13421773 / 134217728) 5 = 1 :=
    dashAlpha32_step _ _ _ _ 4 0 8388608 hh a4 (by norm_num)
      (by norm_num [abs_of_pos]) (by norm_num [abs_of_pos]) (by norm_num [abs_lt])
      (by norm_num)
  have a6 : dashAlpha32 (13421773 / 134217728) 6 = 5033165 / 4194304 :=
    dashAlpha32_step _ _ _ _ 5 0 10066330 hh a5 (by norm_num)
      (by norm_num [abs_of_pos]) (by norm_num [abs_of_pos]) (by norm_num [abs_lt])
      (by norm_num)
  have hfloor : ⌊1 / (2 * (13421773 / 134217728 : ℚ))⌋₊ = 4 :=
    (Nat.floor_eq_iff (by norm_num)).mpr ⟨by norm_num, by norm_num⟩
  obtain ⟨hA, hM0, hT, hB⟩ :=
    Client_DashMulti_binary32_first axisEngine
      { (⟨0, ⟨0, 0, 0⟩, ⟨600, 0, 0⟩, ⟨1, 0, 0⟩, true⟩ : World) with
        DeltaSeconds := 13421773 / 134217728 }
      constructed
  obtain ⟨t, hrun, htA, hlen, hpt, -, hb⟩ :=
    run_binary32_dash_moving axisEngine ⟨0, ⟨0, 0, 0⟩, ⟨600, 0, 0⟩, ⟨1, 0, 0⟩, true⟩
      (13421773 / 134217728) 5 1
      (Client_DashMulti_Implementation_binary32 axisEngine
        { (⟨0, ⟨0, 0, 0⟩, ⟨600, 0, 0⟩, ⟨1, 0, 0⟩, true⟩ : World) with
          DeltaSeconds := 13421773 / 134217728 }
        constructed)
      (by rw [hT]; simp) hA
      (by
        intro j hj
        interval_cases j
        · rw [a1]; norm_num
        · rw [a2]; norm_num
        · rw [a3]; norm_num
        · rw [a4]; norm_num
        · rw [a5])
  refine ⟨hf, by rw [hfloor], t, hrun, ?_, hpt, ?_, ?_⟩
  · rw [hlen, hM0]
    rfl
  · rw [hb, hB]
  · rw [htA, a6]

/-! ## The end point of a dash -/

/-- A step other than the start of a new dash keeps `StartLocation` and
`ForwardVector`, and either requests nothing and keeps `DashAlpha`, or adds
twice the frame delta to `DashAlpha` and requests the interpolation there. -/
theorem step_dash_ray (E : Engine) (e : World × Action) (a b : State)
    (he : e.2 ≠ Action.deliver Rpc.Client_DashMulti) (hs : step E e a = some b) :
    b.StartLocation = a.StartLocation ∧ b.ForwardVector = a.ForwardVector ∧
    ((b.moves = a.moves ∧ b.DashAlpha = a.DashAlpha) ∨
      (b.moves = a.moves ++
          [(a.StartLocation + b.DashAlpha • ((1000 : ℚ) • a.ForwardVector), true)] ∧
        b.DashAlpha = a.DashAlpha + 2 * e.1.DeltaSeconds)) := by
  obtain ⟨w, x⟩ := e
  cases x with
  | Dash =>
    simp only [step, Option.some.injEq] at hs
    subst hs
    simp only [Dash]
    split_ifs <;> simp
  | Aim =>
    simp only [step, Option.some.injEq] at hs
    subst hs
    simp [(Aim_frame E w a).1]
  | AimStop =>
    simp only [step, Option.some.injEq] at hs
    subst hs
    simp [(Aim_frame E w a).2]
  | deliver r =>
    simp only [step] at hs
    split_ifs at hs
    simp only [Option.some.injEq] at hs
    subst hs
    cases r with
    | Server_Dash => simp [implementation, Server_Dash_Implementation]
    | Client_DashMulti => exact absurd rfl he
    | Server_Aim c => simp [implementation, Server_Aim_Implementation]
    | Client_AimMulti c => simp [implementation, Client_AimMulti_frame]
  | fire tm =>
    simp only [step] at hs
    split_ifs at hs
    simp only [Option.some.injEq] at hs
    subst hs
    cases hcb : tm.cb with
    | DashCooldownReset => simp [callback, DashCooldownReset]
    | AimCameraInterp => simp [callback, AimCameraInterp_frame]
    | DashInAction =>
      have h2 : w.DeltaSeconds * 2 = 2 * w.DeltaSeconds := by ring
      simp only [callback, DashInAction]
      split_ifs <;> simp [Lerp_add, h2]

/-- An execution that starts no new dash keeps `StartLocation` and
`ForwardVector`; every request it adds is `StartLocation + α • (1000 •
ForwardVector)` for some `α`, which is at least the initial `DashAlpha` when no
frame delta is negative. -/
theorem run_dash_ray (E : Engine) (evs : List (World × Action)) (a b : State)
    (hev : ∀ e ∈ evs, e.2 ≠ Action.deliver Rpc.Client_DashMulti)
    (hrun : run E evs a = some b) :
    b.StartLocation = a.StartLocation ∧ b.ForwardVector = a.ForwardVector ∧
    ((∀ e ∈ evs, 0 ≤ e.1.DeltaSeconds) → a.DashAlpha ≤ b.DashAlpha) ∧
    ∃ added : List (FVector × Bool), b.moves = a.moves ++ added ∧
      ∀ p ∈ added, ∃ α : ℚ,
        p = (a.StartLocation + α • ((1000 : ℚ) • a.ForwardVector), true) ∧
        ((∀ e ∈ evs, 0 ≤ e.1.DeltaSeconds) → a.DashAlpha ≤ α) := by
  induction evs generalizing a with
  | nil =>
    simp only [run, Option.some.injEq] at hrun
    subst hrun
    exact ⟨rfl, rfl, fun _ => le_refl _, [], by simp, by simp⟩
  | cons e es ih =>
    simp only [run] at hrun
    cases h1 : step E e a with
    | none => simp [h1] at hrun
    | some u =>
      rw [h1] at hrun
      obtain ⟨hS, hF, hstep⟩ := step_dash_ray E e a u (hev e (List.mem_cons_self _ _)) h1
      obtain ⟨hS2, hF2, hmono, added, hadd, hall⟩ :=
        ih u (fun e2 h2 => hev e2 (List.mem_cons_of_mem _ h2)) hrun
      have hau : 0 ≤ e.1.DeltaSeconds → a.DashAlpha ≤ u.DashAlpha := by
        intro h0
        rcases hstep with ⟨-, hα⟩ | ⟨-, hα⟩
        · exact hα.ge
        · rw [hα]
          linarith
      have hrest : ∀ p ∈ added, ∃ α : ℚ,
          p = (a.StartLocation + α • ((1000 : ℚ) • a.ForwardVector), true) ∧
          ((∀ e2 ∈ e :: es, 0 ≤ e2.1.DeltaSeconds) → a.DashAlpha ≤ α) := by
        intro p hp
        obtain ⟨α, hpα, hα⟩ := hall p hp
        refine ⟨α, by rw [hpα, hS, hF], fun hnn => ?_⟩
        exact le_trans (hau (hnn e (List.mem_cons_self _ _)))
          (hα (fun e2 h2 => hnn e2 (List.mem_cons_of_mem _ h2)))
      refine ⟨by rw [hS2, hS], by rw [hF2, hF], fun hnn => ?_, ?_⟩
      · exact le_trans (hau (hnn e (List.mem_cons_self _ _)))
          (hmono (fun e2 h2 => hnn e2 (List.mem_cons_of_mem _ h2)))
      · rcases hstep with ⟨hm, -⟩ | ⟨hm, -⟩
        · exact ⟨added, by rw [hadd, hm], hrest⟩
        · refine ⟨(a.StartLocation + u.DashAlpha • ((1000 : ℚ) • a.ForwardVector), true) :: added,
            by rw [hadd, hm]; simp, ?_⟩
          intro p hp
          rcases List.mem_cons.mp hp with hp | hp
          · exact ⟨u.DashAlpha, hp, fun hnn => hau (hnn e (List.mem_cons_self _ _))⟩
          · exact hrest p hp

/-- C10: `Client_DashMulti_Implementation` takes as direction the velocity with
`Z` replaced by 0 when that vector is longer than 5, and otherwise the camera
forward vector with `Z` replaced by 0, and normalises it.  When normalising
scales by a non-negative scalar, `ForwardVector.Z` is 0, and in every execution
that follows without starting a new dash `StartLocation` and `ForwardVector`
stay the same and every requested location has the `Z` of `StartLocation` and is
`StartLocation + r • ForwardVector`, with `r ≥ 0` when no frame delta is
negative. -/
theorem dash_horizontal (E : Engine) (w : World) (s : State)
    (hN : ∀ v : FVector, ∃ k : ℚ, 0 ≤ k ∧ E.Normalize v = k • v) :
    (Client_DashMulti_Implementation E w s).StartLocation = w.ActorLocation ∧
    (Client_DashMulti_Implementation E w s).ForwardVector =
      E.Normalize
        (if E.Length ⟨w.Velocity.X, w.Velocity.Y, 0⟩ > 5 then ⟨w.Velocity.X, w.Velocity.Y, 0⟩
          else ⟨w.CameraForward.X, w.CameraForward.Y, 0⟩) ∧
    (Client_DashMulti_Implementation E w s).ForwardVector.Z = 0 ∧
    ∀ (evs : List (World × Action)) (t : State),
      (∀ e ∈ evs, e.2 ≠ Action.deliver Rpc.Client_DashMulti) →
      run E evs (Client_DashMulti_Implementation E w s) = some t →
      t.StartLocation = w.ActorLocation ∧
      t.ForwardVector = (Client_DashMulti_Implementation E w s).ForwardVector ∧
      ∃ added : List (FVector × Bool), t.moves = s.moves ++ added ∧ added ≠ [] ∧
        ∀ p ∈ added, p.1.Z = w.ActorLocation.Z ∧
          ∃ r : ℚ, p.1 = w.ActorLocation + r • t.ForwardVector ∧
            ((0 ≤ w.DeltaSeconds ∧ ∀ e ∈ evs, 0 ≤ e.1.DeltaSeconds) → 0 ≤ r) := by
  obtain ⟨hA, hS, hF, hM, -, -, -, -⟩ := Client_DashMulti_first E w s
  have hZ : (E.Normalize (dashDirection E w)).Z = 0 := by
    obtain ⟨k, -, hk⟩ := hN (dashDirection E w)
    rw [hk]
    simp only [dashDirection]
    split_ifs <;> simp
  refine ⟨hS, hF, by rw [hF]; exact hZ, ?_⟩
  intro evs t hev hrun
  obtain ⟨hS2, hF2, -, added, hadd, hall⟩ := run_dash_ray E evs _ t hev hrun
  rw [hS] at hS2
  have hray : ∀ α : ℚ,
      (w.ActorLocation + α • ((1000 : ℚ) • E.Normalize (dashDirection E w))).Z =
        w.ActorLocation.Z ∧
      w.ActorLocation + α • ((1000 : ℚ) • E.Normalize (dashDirection E w)) =
        w.ActorLocation + (α * 1000) • t.ForwardVector := by
    intro α
    constructor
    · simp [hZ]
    · rw [hF2, hF]
      ext <;> simp <;> ring
  refine ⟨hS2, hF2,
    (w.ActorLocation + (2 * w.DeltaSeconds) • ((1000 : ℚ) • E.Normalize (dashDirection E w)),
      true) :: added, by rw [hadd, hM]; simp, by simp, ?_⟩
  intro p hp
  rcases List.mem_cons.mp hp with hp | hp
  · subst hp
    refine ⟨(hray _).1, 2 * w.DeltaSeconds * 1000, (hray _).2, fun hnn => ?_⟩
    have := hnn.1
    positivity
  · obtain ⟨α, hpα, hα⟩ := hall p hp
    rw [hS, hF] at hpα
    subst hpα
    refine ⟨(hray _).1, α * 1000, (hray _).2, fun hnn => ?_⟩
    have h1 := hα hnn.2
    rw [hA] at h1
    have := hnn.1
    have : 0 ≤ α := by linarith
    positivity

/-- C10 at a concrete dash: the constructed character moving along the first
axis, stepped once. -/
theorem dash_horizontal_witness :
    (∀ v : FVector, ∃ k : ℚ, 0 ≤ k ∧ axisEngine.Normalize v = k • v) ∧
    (Client_DashMulti_Implementation axisEngine
      ⟨1 / 4, ⟨10, 20, 30⟩, ⟨600, 0, 7⟩, ⟨1, 0, 0⟩, true⟩ constructed).ForwardVector.Z = 0 ∧
    ∃ t, run axisEngine
        [dashTick ⟨1 / 4, ⟨10, 20, 30⟩, ⟨600, 0, 7⟩, ⟨1, 0, 0⟩, true⟩ (1 / 4)]
        (Client_DashMulti_Implementation axisEngine
          ⟨1 / 4, ⟨10, 20, 30⟩, ⟨600, 0, 7⟩, ⟨1, 0, 0⟩, true⟩ constructed) = some t ∧
      t.StartLocation = ⟨10, 20, 30⟩ := by
  have hN : ∀ v : FVector, ∃ k : ℚ, 0 ≤ k ∧ axisEngine.Normalize v = k • v := by
    intro v
    simp only [axisEngine]
    split_ifs
    · exact ⟨1, by norm_num, by ext <;> simp⟩
    · exact ⟨1 / (|v.X| + |v.Y| + |v.Z|), by positivity, rfl⟩
  have hrun : ∃ t, run axisEngine
        [dashTick ⟨1 / 4, ⟨10, 20, 30⟩, ⟨600, 0, 7⟩, ⟨1, 0, 0⟩, true⟩ (1 / 4)]
        (Client_DashMulti_Implementation axisEngine
          ⟨1 / 4, ⟨10, 20, 30⟩, ⟨600, 0, 7⟩, ⟨1, 0, 0⟩, true⟩ constructed) = some t := by
    simp [run, step, dashTick, Client_DashMulti_Implementation, DashInAction, dashBegin,
      constructed, callback, Timer.cb, Timer.fired]
  obtain ⟨t, ht⟩ := hrun
  have h := dash_horizontal axisEngine ⟨1 / 4, ⟨10, 20, 30⟩, ⟨600, 0, 7⟩, ⟨1, 0, 0⟩, true⟩
    constructed hN
  exact ⟨hN, h.2.2.1, t, ht, (h.2.2.2 _ t (by simp [dashTick]) ht).1⟩

/-! ## Aiming during a dash -/

/-- C9: `Aim` and `AimStop` end with `MaxWalkSpeed = 250` exactly when `ADS` is
true, and so does `Client_AimMulti` when the instance is not locally controlled
or when that held before the call (locally controlled, it changes nothing).  The
finishing branch of `DashInAction` sets `MaxWalkSpeed` to 500 and keeps `ADS`,
whatever it is.  So the pairing can break: from the constructed character, a
`Dash` (with `ADS` false), the two RPC bodies, an `Aim` while `DashInAction` is
still pending, and the fired `DashInAction` calls up to the finishing one, in
frames of a quarter second, end with `ADS` true and `MaxWalkSpeed = 500`. -/
theorem dash_end_breaks_pairing (E : Engine) (w : World) (s : State) (b : Bool) :
    ((Aim E w s).ADS = true ↔ (Aim E w s).MaxWalkSpeed = 250) ∧
    ((AimStop E w s).ADS = true ↔ (AimStop E w s).MaxWalkSpeed = 250) ∧
    ((Client_AimMulti_Implementation { w with IsLocallyControlled := false } b s).ADS = true ↔
      (Client_AimMulti_Implementation { w with IsLocallyControlled := false } b s).MaxWalkSpeed
        = 250) ∧
    ((s.ADS = true ↔ s.MaxWalkSpeed = 250) →
      ((Client_AimMulti_Implementation w b s).ADS = true ↔
        (Client_AimMulti_Implementation w b s).MaxWalkSpeed = 250)) ∧
    (1 < s.DashAlpha →
      DashInAction w s = { s with MaxWalkSpeed := 500, bPauseAnims := false }) ∧
    (∃ t, run E
        [ ({ w with DeltaSeconds := 1 / 4 }, Action.Dash),
          ({ w with DeltaSeconds := 1 / 4 }, Action.deliver Rpc.Server_Dash),
          ({ w with DeltaSeconds := 1 / 4 }, Action.deliver Rpc.Client_DashMulti),
          ({ w with DeltaSeconds := 1 / 4 }, Action.Aim),
          ({ w with DeltaSeconds := 1 / 4 }, Action.fire (Timer.nextTick Callback.DashInAction)),
          ({ w with DeltaSeconds := 1 / 4 }, Action.fire (Timer.nextTick Callback.DashInAction)),
          ({ w with DeltaSeconds := 1 / 4 }, Action.fire (Timer.nextTick Callback.DashInAction)) ]
        constructed = some t ∧
      t.ADS = true ∧ t.MaxWalkSpeed = 500 ∧ t.DashAlpha = 3 / 2) := by
  have hA := (Aim_post E w s).1
  have hS := (Aim_post E w s).2
  refine ⟨by simp [hA.1, hA.2.1], by simp [hS.1, hS.2.1], ?_, ?_, ?_, ?_⟩
  · cases b <;> simp [Client_AimMulti_Implementation]
  · intro h
    simp only [Client_AimMulti_Implementation]
    cases b <;> split_ifs <;> simp [h]
  · intro h
    simp [DashInAction, not_le.mpr h]
  · obtain ⟨hA, hS, hF, hM, hT, -, -, -⟩ :=
      Client_DashMulti_first E { w with DeltaSeconds := 1 / 4 }
        { constructed with
          DashCD := true
          timers := [Timer.after Callback.DashCooldownReset 1 false] }
    have h3 : run E
        [ ({ w with DeltaSeconds := 1 / 4 }, Action.Dash),
          ({ w with DeltaSeconds := 1 / 4 }, Action.deliver Rpc.Server_Dash),
          ({ w with DeltaSeconds := 1 / 4 }, Action.deliver Rpc.Client_DashMulti),
          ({ w with DeltaSeconds := 1 / 4 }, Action.Aim) ] constructed =
        some (Aim E { w with DeltaSeconds := 1 / 4 }
          (Client_DashMulti_Implementation E { w with DeltaSeconds := 1 / 4 }
            { constructed with
              DashCD := true
              timers := [Timer.after Callback.DashCooldownReset 1 false] })) := by
      simp [run, step, Dash, constructed, implementation, Server_Dash_Implementation,
        List.erase_cons]
    obtain ⟨-, hfS, hfF, hfA, hfM, -⟩ := (Aim_frame E { w with DeltaSeconds := 1 / 4 }
      (Client_DashMulti_Implementation E { w with DeltaSeconds := 1 / 4 }
        { constructed with
          DashCD := true
          timers := [Timer.after Callback.DashCooldownReset 1 false] })).1
    have hads := (Aim_post E { w with DeltaSeconds := 1 / 4 }
      (Client_DashMulti_Implementation E { w with DeltaSeconds := 1 / 4 }
        { constructed with
          DashCD := true
          timers := [Timer.after Callback.DashCooldownReset 1 false] })).1.1
    obtain ⟨t, hrun, htA, -, -, -, -, hpt, -, -, -, htD⟩ :=
      run_dash_moving E w [1 / 4, 1 / 4] _
        (Aim_keeps_timers E { w with DeltaSeconds := 1 / 4 } _
          (Timer.nextTick Callback.DashInAction) (by rw [hT]; simp))
        (by
          intro j hj
          rw [hfA, hA]
          simp only [List.length_cons, List.length_nil] at hj
          interval_cases j <;> norm_num)
        (by rw [hfM, hfS, hfF, hfA, hM, hS, hF, hA]; simp)
    have hgt : ¬ t.DashAlpha ≤ 1 := by
      rw [htA, hfA, hA]
      norm_num
    refine ⟨DashInAction { w with DeltaSeconds := 1 / 4 }
      { t with timers := t.timers.erase (Timer.nextTick Callback.DashInAction) }, ?_, ?_, ?_, ?_⟩
    · have hcat : run E
          ([ ({ w with DeltaSeconds := 1 / 4 }, Action.Dash),
            ({ w with DeltaSeconds := 1 / 4 }, Action.deliver Rpc.Server_Dash),
            ({ w with DeltaSeconds := 1 / 4 }, Action.deliver Rpc.Client_DashMulti),
            ({ w with DeltaSeconds := 1 / 4 }, Action.Aim) ] ++
            (([1 / 4, 1 / 4] : List ℚ).map (dashTick w) ++ [dashTick w (1 / 4)])) constructed =
          some (DashInAction { w with DeltaSeconds := 1 / 4 }
            { t with timers := t.timers.erase (Timer.nextTick Callback.DashInAction) }) := by
        rw [run_append, h3, Option.some_bind, run_append, hrun, Option.some_bind]
        simp only [run, step_dashTick E w (1 / 4) t hpt, Option.some_bind]
      exact hcat
    · simp only [DashInAction, hgt, if_false]
      rw [htD]
      exact hads
    · simp only [DashInAction, hgt, if_false]
    · simp only [DashInAction, hgt, if_false]
      rw [htA, hfA, hA]
      norm_num

end TestProject
